import Mathlib

/-!
Verification development for the Polymarket bot analyzer: a shallow embedding
of the reconciliation engine (`services/parser.ts`: `parseInputData`,
`processTrades`, `exportToCSV`), of the aggregator
(`services/analytics.ts`: `calculateAnalytics`), and proofs of the stated
properties of the system.

Modelling conventions:
- JavaScript numbers are modelled as `ℚ`; a field that may be `undefined`
  is an `Option`.  JS truthiness on a `number | undefined` value
  (`undefined`, `0` falsy) is `truthyQ`; `a || b` on such values is `jsOrQ`.
- JS `Map` / plain-object dictionaries whose two "absent" states
  (`undefined` and `0`) are observationally identical in the source are
  modelled as total functions with default `0`.
- `Date` parsing, `Date.now()` and `toLocaleDateString` are abstracted as
  parameters (`dateMs`, `now`, `locDate`); a chat-log timestamp already
  converted to unix seconds (`new Date(log.date).getTime() / 1000`) is
  carried on the extracted signal as `time`.
- The regex-driven signal extraction (lines 246-264 of the parser: the
  per-log/per-line loop, `extractTraderName`, `parseTradeDetails`,
  `detectCategory`) is factored out: a run is modelled as the list of
  extracted `Signal`s in chat-log traversal order, and `processSignals`
  is the remainder of `processTrades` (lines 240-243 and 261-538), which
  threads the claim set / attempts map through the signals exactly as the
  source's interleaved loops do.
-/

/-! ## JS string/number primitives -/

/-- JS `String.prototype.includes`: `jsIncludes s sub` is `s.includes(sub)`. -/
def jsIncludes (s sub : String) : Bool := decide (sub.data <:+: s.data)

/-- JS `toLowerCase` (ASCII range, which is all the matcher keys use). -/
def jsToLower (s : String) : String := ⟨s.data.map Char.toLower⟩

/-- JS `toUpperCase` (ASCII range). -/
def jsToUpper (s : String) : String := ⟨s.data.map Char.toUpper⟩

/-- The parser's `simplify`: lower-case and strip every character outside
`[a-z0-9]` (`str.toLowerCase().replace(/[^a-z0-9]/g, '')`). -/
def simplify (s : String) : String :=
  ⟨(s.data.map Char.toLower).filter fun c =>
    (decide ('a' ≤ c) && decide (c ≤ 'z')) || (decide ('0' ≤ c) && decide (c ≤ '9'))⟩

/-- `simplify` applied to a possibly-undefined string: the source's
`simplify` begins with `if (!str) return ''`. -/
def simplifyOpt (s : Option String) : String := simplify (s.getD "")

/-- JS truthiness of a `number | undefined` value: `undefined` and `0` are falsy. -/
def truthyQ (a : Option ℚ) : Bool :=
  match a with
  | some x => x != 0
  | none => false

/-- JS `a || b` where `a : number | undefined` and `b` is a number. -/
def jsOrQ (a : Option ℚ) (b : ℚ) : ℚ :=
  match a with
  | some x => if x = 0 then b else x
  | none => b

/-! ## Data model (`types.ts`) -/

/-- `TradeStatus` ('Success' | 'Failed' | 'Pending/Skipped' | 'Not Executed'). -/
inductive TradeStatus
  | success
  | failed
  | pending
  | missing
deriving DecidableEq

/-- `matchedPositionStatus` ('Active' | 'Closed' | 'None'); 'None' is `unmatched`. -/
inductive PosStatus
  | active
  | closed
  | unmatched
deriving DecidableEq

/-- `matchConfidence` ('Exact (Activity)' | 'Inferred (Position)' | 'None'). -/
inductive Confidence
  | exactActivity
  | inferredPosition
  | confNone
deriving DecidableEq

/-- `result` ('WIN' | 'LOSS' | 'OPEN'); 'OPEN' is `opn`. -/
inductive TradeResult
  | win
  | loss
  | opn
deriving DecidableEq

/-- The categorizer's output ('Sport' | 'Non-Sport'). -/
inductive MarketCategory
  | sport
  | nonSport
deriving DecidableEq

/-- `PortfolioRow` (`types.ts`): one portfolio snapshot row.  All numeric
fields are optional in the interface; after the normalizer they are all
defined. -/
structure PortfolioRow where
  Category : String := ""
  asset : Option String := none
  title : String := ""
  slug : String := ""
  size : Option ℚ := none
  avgPrice : Option ℚ := none
  currentValue : Option ℚ := none
  cashPnl : Option ℚ := none
  realizedPnl : Option ℚ := none
  outcome : Option String := none
  timestamp : Option ℚ := none
  side : Option String := none
  usdcSize : Option ℚ := none
  transactionHash : Option String := none
  price : Option ℚ := none
  curPrice : Option ℚ := none
  date : Option String := none
deriving DecidableEq

/-- Default row used only as the (unreachable) out-of-range fallback of a
list access. -/
def dfltRow : PortfolioRow := {}

/-- The record produced by `parseTradeDetails` for one chat-log line. -/
structure SignalDetails where
  action : String
  outcome : String
  amount : ℚ
  marketTitle : String
  marketUrl : String
  marketSlug : String
  status : TradeStatus
  failureReason : String
deriving DecidableEq

/-- One extracted trade-intent signal, in chat-log traversal order:
`date` is `log.date`, `time` is `new Date(log.date).getTime() / 1000`,
`traderName` comes from `extractTraderName`, `category` from
`detectCategory(details.marketTitle, details.marketSlug)`. -/
structure Signal where
  date : String
  time : ℚ
  traderName : String
  category : MarketCategory
  details : SignalDetails
deriving DecidableEq

/-- `ProcessedTrade` (`types.ts`), as produced by `processTrades`.  The
`Math.random()`-based opaque `id` is omitted (no property concerns it).
`matchedActivityIndex` records the source's local `bestActivityIndex`
whenever an activity row is claimed (lines 290/339/345), so that the
exclusive-claim invariant over activity records can be stated; it is
`some` exactly when `matchConfidence` is 'Exact (Activity)'. -/
structure ProcessedTrade where
  date : String
  closedDate : Option String
  traderName : String
  action : String
  outcome : String
  amount : ℚ
  marketTitle : String
  marketSlug : String
  marketUrl : String
  status : TradeStatus
  failureReason : String
  category : MarketCategory
  matchedPositionStatus : PosStatus
  pnl : Option ℚ
  currentValue : Option ℚ
  matchedTxHash : Option String
  matchedExecutionPrice : Option ℚ
  matchedExecutionAmount : Option ℚ
  shares : Option ℚ
  latencySeconds : Option ℚ
  matchConfidence : Confidence
  result : Option TradeResult
  matchedActivityIndex : Option ℕ
  totalAttemptedAmount : Option ℚ
deriving DecidableEq

/-! ## Normalizer (`parseInputData`, lines 90-136) -/

/-- `cleanFloat` restricted to cells that are already numeric or missing:
`if (typeof val === 'number') return val; if (!val) return 0;`.  (The
string-parsing tail of `cleanFloat` is outside the tokenized-cell view
used here; the decisive behaviour for the verified properties is that a
missing cell becomes the number `0`.) -/
def cleanFloatOpt (v : Option ℚ) : ℚ := v.getD 0

/-- The per-row body of `parseInputData`'s `forEach` (lines 106-115):
every numeric field is passed through `cleanFloat`, so it is always
defined afterwards; `timestamp` stays undefined exactly when the raw cell
was empty (`row.timestamp ? parseInt(row.timestamp) : undefined`). -/
def normalizeRow (r : PortfolioRow) : PortfolioRow :=
  { r with
    size := some (cleanFloatOpt r.size)
    avgPrice := some (cleanFloatOpt r.avgPrice)
    currentValue := some (cleanFloatOpt r.currentValue)
    cashPnl := some (cleanFloatOpt r.cashPnl)
    realizedPnl := some (cleanFloatOpt r.realizedPnl)
    usdcSize := some (cleanFloatOpt r.usdcSize)
    price := some (cleanFloatOpt r.price)
    curPrice := some (cleanFloatOpt r.curPrice)
    timestamp := r.timestamp }

/-- `parseInputData`'s partitioning (lines 117-126): normalize each row and
route it by a case-insensitive substring test on its category tag into
(active positions, closed positions, activity history); rows matching no
tag are dropped. -/
def parseInputData (rows : List PortfolioRow) :
    List PortfolioRow × List PortfolioRow × List PortfolioRow :=
  rows.foldl
    (fun acc row =>
      let r := normalizeRow row
      let cat := jsToUpper r.Category
      if jsIncludes cat "OPEN_POSITION" then (acc.1 ++ [r], acc.2.1, acc.2.2)
      else if jsIncludes cat "CLOSED_POSITION" then (acc.1, acc.2.1 ++ [r], acc.2.2)
      else if jsIncludes cat "ACTIVITY_HISTORY" then (acc.1, acc.2.1, acc.2.2 ++ [r])
      else acc)
    ([], [], [])

/-! ## Reconciliation engine (`processTrades`, lines 233-539) -/

/-- `createPositionMatcher` (lines 294-313): asset identity is the
strongest match; otherwise mutual substring containment of simplified
slugs, with outcomes required to agree when both are defined and a
missing position-side outcome accepted. -/
def createPositionMatcher (matchAssetId : Option String)
    (simpleSlug simpleOutcome : String) (p : PortfolioRow) : Bool :=
  let pSlug := simplify p.slug
  let pOutcome := simplifyOpt p.outcome
  if (match matchAssetId with
      | some a => a != "" && p.asset == some a
      | none => false) then true
  else if p.slug != "" && (jsIncludes pSlug simpleSlug || jsIncludes simpleSlug pSlug) then
    if pOutcome != "" && simpleOutcome != "" then pOutcome == simpleOutcome
    else true
  else false

/-- One iteration of the activity-history `forEach` (lines 316-341), acting
on the incumbent `(bestActivityIndex, minTimeDiff)` pair (`none` models
`bestActivityIndex = -1`). -/
def activityStep (used : List ℕ) (simpleSide simpleSlug simpleOutcome : String)
    (tradeTime : ℚ) (acc : Option ℕ × ℚ) (idx : ℕ) (h : PortfolioRow) : Option ℕ × ℚ :=
  if used.contains idx then acc
  else if (h.side.map jsToUpper) != some simpleSide then acc
  else
    let hSlug := simplify h.slug
    if !(jsIncludes hSlug simpleSlug || jsIncludes simpleSlug hSlug) then acc
    else
      let diff := |jsOrQ h.timestamp 0 - tradeTime|
      if diff < acc.2 then
        let hOutcome := simplifyOpt h.outcome
        if hOutcome != "" && simpleOutcome != "" &&
            (hOutcome == "yes" || hOutcome == "no") &&
            (simpleOutcome == "yes" || simpleOutcome == "no") &&
            hOutcome != simpleOutcome then acc
        else (some idx, diff)
      else acc

/-- The activity-history scan, indexed from `idx`. -/
def scanActivities (used : List ℕ) (simpleSide simpleSlug simpleOutcome : String)
    (tradeTime : ℚ) : ℕ → Option ℕ × ℚ → List PortfolioRow → Option ℕ × ℚ
  | _, acc, [] => acc
  | idx, acc, h :: rest =>
      scanActivities used simpleSide simpleSlug simpleOutcome tradeTime (idx + 1)
        (activityStep used simpleSide simpleSlug simpleOutcome tradeTime acc idx h) rest

/-- Step 1 of the reconciliation (lines 290-341): scan the activity history
with incumbent `(none, 3600)` (a one-hour window). -/
def findBestActivity (used : List ℕ) (simpleSide simpleSlug simpleOutcome : String)
    (tradeTime : ℚ) (activityHistory : List PortfolioRow) : Option ℕ × ℚ :=
  scanActivities used simpleSide simpleSlug simpleOutcome tradeTime 0 (none, 3600) activityHistory

/-- The PnL resolver for closed positions (lines 388-428): settlement
price, then extreme quoted price, then value/size ratio, then
realized-PnL sign; returns (exit price, result). -/
def pnlResolverExit (closedPos : PortfolioRow) : ℚ × TradeResult :=
  let realizedPnl := closedPos.realizedPnl.getD 0
  let fallback :=
    if truthyQ closedPos.size && closedPos.currentValue.isSome then
      let posSize := closedPos.size.getD 0
      let posValue := closedPos.currentValue.getD 0
      let ratio := if |posSize| > 0 then posValue / |posSize| else 0
      if ratio > 9/10 then ((1 : ℚ), TradeResult.win)
      else if ratio < 1/10 then ((0 : ℚ), TradeResult.loss)
      else if realizedPnl > 0 then ((1 : ℚ), TradeResult.win)
      else ((0 : ℚ), TradeResult.loss)
    else if realizedPnl > 0 then ((1 : ℚ), TradeResult.win)
    else ((0 : ℚ), TradeResult.loss)
  match closedPos.curPrice with
  | some exitPrice => (exitPrice, if exitPrice > 1/2 then TradeResult.win else TradeResult.loss)
  | none =>
    match closedPos.price with
    | some posPrice =>
      if posPrice > 9/10 || posPrice < 1/10 then
        if posPrice > 9/10 then ((1 : ℚ), TradeResult.win) else ((0 : ℚ), TradeResult.loss)
      else fallback
    | none => fallback

/-- The reconciliation fields accumulated for one signal before the
`processed.push` (the `let` block of lines 273-283 plus `details`'s
mutable `marketUrl`/`status`/`failureReason`). -/
structure MatchOutcome where
  matchedStatus : PosStatus := PosStatus.unmatched
  pnl : Option ℚ := none
  currentValue : Option ℚ := none
  matchedTxHash : Option String := none
  matchedExecutionPrice : Option ℚ := none
  matchedExecutionAmount : Option ℚ := none
  shares : Option ℚ := none
  latencySeconds : Option ℚ := none
  matchConfidence : Confidence := Confidence.confNone
  closedDate : Option String := none
  result : Option TradeResult := none
  matchedActivityIndex : Option ℕ := none
  marketUrl : String
  status : TradeStatus
  failureReason : String
deriving DecidableEq

/-- URL back-fill (`if (!details.marketUrl && pos.slug) details.marketUrl = ...`). -/
def backfillUrl (url posSlug : String) : String :=
  if url == "" && posSlug != "" then "https://polymarket.com/event/" ++ posSlug else url

/-- Active-position valuation after an exact activity match (lines 368-379). -/
def exactActiveOutcome (entryPrice tradeShares : ℚ) (base : MatchOutcome)
    (activePos : PortfolioRow) : MatchOutcome :=
  let currentPrice := jsOrQ activePos.price
    (if truthyQ activePos.currentValue && truthyQ activePos.size then
      activePos.currentValue.getD 0 / activePos.size.getD 0
    else 0)
  { base with
    matchedStatus := PosStatus.active
    result := some TradeResult.opn
    pnl := some ((currentPrice - entryPrice) * tradeShares)
    currentValue := some (currentPrice * tradeShares)
    marketUrl := backfillUrl base.marketUrl activePos.slug }

/-- Closed-position valuation after an exact activity match (lines 383-437). -/
def exactClosedOutcome (entryPrice tradeShares : ℚ) (base : MatchOutcome)
    (closedPos : PortfolioRow) : MatchOutcome :=
  let er := pnlResolverExit closedPos
  { base with
    matchedStatus := PosStatus.closed
    closedDate :=
      match closedPos.date with
      | some d => if d ≠ "" then some d else base.closedDate
      | none => base.closedDate
    result := some er.2
    pnl := some ((er.1 - entryPrice) * tradeShares)
    currentValue := some (er.1 * tradeShares)
    marketUrl := backfillUrl base.marketUrl closedPos.slug }

/-- Inferred active-position match when no activity row was found
(lines 446-468). -/
def inferredActiveOutcome (base : MatchOutcome) (activePos : PortfolioRow) : MatchOutcome :=
  let b := { base with
    matchedStatus := PosStatus.active
    matchConfidence := Confidence.inferredPosition
    result := some TradeResult.opn
    marketUrl := backfillUrl base.marketUrl activePos.slug }
  if truthyQ activePos.avgPrice && truthyQ activePos.currentValue && truthyQ activePos.size then
    let entryPx := activePos.avgPrice.getD 0
    let currPx := jsOrQ activePos.price (activePos.currentValue.getD 0 / activePos.size.getD 0)
    { b with
      pnl := some ((currPx - entryPx) * activePos.size.getD 0)
      shares := some (activePos.size.getD 0)
      matchedExecutionPrice := some entryPx
      matchedExecutionAmount := some (activePos.size.getD 0 * entryPx) }
  else b

/-- Inferred closed-position match when no activity row was found
(lines 471-489): PnL is the row's realized PnL, result its sign. -/
def inferredClosedOutcome (base : MatchOutcome) (closedPos : PortfolioRow) : MatchOutcome :=
  let b := { base with
    matchedStatus := PosStatus.closed
    matchConfidence := Confidence.inferredPosition
    closedDate :=
      match closedPos.date with
      | some d => if d ≠ "" then some d else base.closedDate
      | none => base.closedDate
    shares := if truthyQ closedPos.size then closedPos.size else base.shares
    marketUrl := backfillUrl base.marketUrl closedPos.slug }
  match closedPos.realizedPnl with
  | some rp =>
    { b with
      pnl := some rp
      result := some (if rp > 0 then TradeResult.win else TradeResult.loss) }
  | none => b

/-- The reconciliation of one signal (lines 273-495): Step 1 activity scan,
Step 2 position search on success, Step 3 inferred fallback otherwise.
Returns the accumulated fields and the updated claimed-index set. -/
def matchSignal (activePositions closedPositions activityHistory : List PortfolioRow)
    (used : List ℕ) (sig : Signal) : MatchOutcome × List ℕ :=
  let d := sig.details
  let base : MatchOutcome :=
    { marketUrl := d.marketUrl, status := d.status, failureReason := d.failureReason }
  if d.status ≠ TradeStatus.success then (base, used)
  else
    let simpleSide := jsToUpper d.action
    let simpleOutcome := simplify d.outcome
    let simpleSlug := simplify d.marketSlug
    let tradeTime := sig.time
    let scanRes := findBestActivity used simpleSide simpleSlug simpleOutcome tradeTime activityHistory
    match scanRes.1 with
    | some bestIdx =>
      let used' := bestIdx :: used
      let activityMatch := activityHistory.getD bestIdx dfltRow
      let entryPrice := jsOrQ activityMatch.avgPrice (jsOrQ activityMatch.price 0)
      let tradeShares := jsOrQ activityMatch.size 0
      let b := { base with
        matchConfidence := Confidence.exactActivity
        matchedActivityIndex := some bestIdx
        matchedTxHash := activityMatch.transactionHash
        matchedExecutionPrice := some entryPrice
        matchedExecutionAmount := some (jsOrQ activityMatch.usdcSize (entryPrice * tradeShares))
        shares := some tradeShares
        latencySeconds :=
          if truthyQ activityMatch.timestamp then
            some (activityMatch.timestamp.getD 0 - tradeTime)
          else none }
      let isMatching := createPositionMatcher activityMatch.asset simpleSlug simpleOutcome
      match activePositions.find? isMatching with
      | some activePos => (exactActiveOutcome entryPrice tradeShares b activePos, used')
      | none =>
        match closedPositions.find? isMatching with
        | some closedPos => (exactClosedOutcome entryPrice tradeShares b closedPos, used')
        | none => (b, used')
    | none =>
      let isMatching := createPositionMatcher none simpleSlug simpleOutcome
      match activePositions.find? isMatching with
      | some activePos => (inferredActiveOutcome base activePos, used)
      | none =>
        match closedPositions.find? isMatching with
        | some closedPos => (inferredClosedOutcome base closedPos, used)
        | none =>
          ({ base with status := TradeStatus.missing, failureReason := "No execution matched" },
            used)

/-- Assembly of the pushed record (lines 498-522). -/
def mkTrade (sig : Signal) (m : MatchOutcome) : ProcessedTrade :=
  { date := sig.date
    closedDate := m.closedDate
    traderName := sig.traderName
    action := sig.details.action
    outcome := sig.details.outcome
    amount := sig.details.amount
    marketTitle := sig.details.marketTitle
    marketSlug := sig.details.marketSlug
    marketUrl := m.marketUrl
    status := m.status
    failureReason := m.failureReason
    category := sig.category
    matchedPositionStatus := m.matchedStatus
    pnl := m.pnl
    currentValue := m.currentValue
    matchedTxHash := m.matchedTxHash
    matchedExecutionPrice := m.matchedExecutionPrice
    matchedExecutionAmount := m.matchedExecutionAmount
    shares := m.shares
    latencySeconds := m.latencySeconds
    matchConfidence := m.matchConfidence
    result := m.result
    matchedActivityIndex := m.matchedActivityIndex
    totalAttemptedAmount := none }

/-- The run state threaded through the first pass: the claimed activity
indices, the attempts map (total function, default `0`: in the source both
`attemptsMap.get(key) || 0` and `if (total)` treat a missing key and a
stored `0` identically), and the records produced so far. -/
structure RunState where
  used : List ℕ
  attempts : String → ℚ
  trades : List ProcessedTrade

/-- The attempts-map key, the template literal `${traderName}-${simpleSlug}`. -/
def attemptKey (traderName simpleSlug : String) : String := traderName ++ "-" ++ simpleSlug

/-- One first-pass iteration (lines 261-271 then 273-522): drop noise lines,
accumulate the stated amount under the trader/slug key, reconcile, push. -/
def stepSignal (aps cps hist : List PortfolioRow) (st : RunState) (sig : Signal) : RunState :=
  if sig.details.marketSlug = "" ∧ sig.details.marketTitle = "" then st
  else
    let simpleSlug := simplify sig.details.marketSlug
    let attempts' :=
      if simpleSlug ≠ "" then
        fun k =>
          if k = attemptKey sig.traderName simpleSlug then st.attempts k + sig.details.amount
          else st.attempts k
      else st.attempts
    let r := matchSignal aps cps hist st.used sig
    { used := r.2, attempts := attempts', trades := st.trades ++ [mkTrade sig r.1] }

/-- The initial run state (lines 239-243). -/
def initialState : RunState := ⟨[], fun _ => 0, []⟩

/-- First pass over all signals in chat-log order. -/
def firstPass (aps cps hist : List PortfolioRow) (sigs : List Signal) : RunState :=
  sigs.foldl (stepSignal aps cps hist) initialState

/-- Second pass (lines 527-536): attach the accumulated total to every
record with a truthy slug whose key has a truthy total. -/
def secondPass (attempts : String → ℚ) (t : ProcessedTrade) : ProcessedTrade :=
  if t.marketSlug ≠ "" then
    let total := attempts (attemptKey t.traderName (simplify t.marketSlug))
    if total ≠ 0 then { t with totalAttemptedAmount := some total } else t
  else t

/-- `processTrades` with extraction factored out: reconcile every signal,
then back-fill the total attempted amounts. -/
def processSignals (aps cps hist : List PortfolioRow) (sigs : List Signal) :
    List ProcessedTrade :=
  let st := firstPass aps cps hist sigs
  st.trades.map (secondPass st.attempts)

/-! ## Aggregator (`services/analytics.ts`, `calculateAnalytics`) -/

/-- A `TimeSeriesPoint` (`types.ts`); `winRate` and `trader` are the two
optional tags. -/
structure TimeSeriesPoint where
  date : String
  timestamp : ℚ
  value : ℚ
  winRate : Option ℚ
  trader : Option String
deriving DecidableEq

/-- The trader summary record as actually returned by `calculateAnalytics`
(lines 223-235).  The `TraderStats` interface additionally declares
`sharpeRatio: number` and `favoriteCategory: string`, but the returned
object literal contains neither, so at runtime both properties are
`undefined`; `favoriteCategory` is therefore modelled as an `Option` that
the aggregator leaves at `none` (`sharpeRatio`, which no stated property
mentions, is not modelled). -/
structure TraderStats where
  name : String
  totalPnl : ℚ
  winRate : ℚ
  profitFactor : ℚ
  avgHoldingTimeHours : ℚ
  longShortRatio : ℚ
  avgTradesPerDay : ℚ
  totalAttempts : ℕ
  bestTrade : ℚ
  worstTrade : ℚ
  avgSuccessfulBet : ℚ
  favoriteCategory : Option MarketCategory
deriving DecidableEq

/-- Deduplication of a JS object's keys in insertion order.  Real
`Object.keys` enumerates integer-like keys (a trader named "123") first,
in ascending numeric order, before the insertion-ordered string keys, so
only the key SET and its distinctness of this model — never its order —
are relied on by the proved properties. -/
def objKeysAcc (seen : List String) : List String → List String
  | [] => []
  | a :: l => if a ∈ seen then objKeysAcc seen l else a :: objKeysAcc (a :: seen) l

/-- `Object.keys` of a record keyed by a list of names: one entry per
distinct name.  Order caveat as on `objKeysAcc`: faithful to the program
only up to reordering (integer-like keys enumerate first in JS). -/
def objKeys (l : List String) : List String := objKeysAcc [] l

/-- The successful-trade filter (lines 169-173). -/
def isSuccessful (t : ProcessedTrade) : Bool :=
  t.status == TradeStatus.success &&
  (t.matchedPositionStatus == PosStatus.active || t.matchedPositionStatus == PosStatus.closed) &&
  t.pnl.isSome

/-- `successfulTrades` (lines 169-173). -/
def successfulTradesOf (trades : List ProcessedTrade) : List ProcessedTrade :=
  trades.filter isSuccessful

/-- `attemptsByTrader` (lines 163-166), modelled as a total function with
default `0` (`(attemptsByTrader[t.traderName] || 0) + 1`). -/
def attemptsByTraderOf (trades : List ProcessedTrade) : String → ℕ :=
  trades.foldl (fun f t k => if k = t.traderName then f k + 1 else f k) (fun _ => 0)

/-- The group `tradesByTrader[trader]` (lines 175-179): that trader's
successful trades in encounter order. -/
def tradesByTraderOf (trades : List ProcessedTrade) (trader : String) : List ProcessedTrade :=
  (successfulTradesOf trades).filter (fun t => t.traderName == trader)

/-- `Object.keys(tradesByTrader)`: distinct trader names of successful
trades in first-occurrence order. -/
def analyticsTraders (trades : List ProcessedTrade) : List String :=
  objKeys ((successfulTradesOf trades).map (fun t => t.traderName))

/-- The per-trader statistics body (lines 181-236).  `dateMs` abstracts
`new Date(s).getTime()` and `now` abstracts `Date.now()`.  The group is
nonempty for every enumerated trader, so the `Math.max(...)` /
`Math.min(...)` spreads are total; they are modelled with `.getD 0` on
`max?`/`min?`. -/
def buildTraderStats (dateMs : String → ℚ) (now : ℚ) (trades : List ProcessedTrade)
    (attemptsByTrader : String → ℕ) (trader : String) : TraderStats :=
  let tTrades := tradesByTraderOf trades trader
  let totalPnl := (tTrades.map (fun t => t.pnl.getD 0)).sum
  let wins := tTrades.filter (fun t => t.pnl.getD 0 > 0)
  let losses := tTrades.filter (fun t => t.pnl.getD 0 ≤ 0)
  let winRate := if tTrades.length > 0 then ((wins.length : ℚ) / tTrades.length) * 100 else 0
  let grossWin := (wins.map (fun t => t.pnl.getD 0)).sum
  let grossLoss := |(losses.map (fun t => t.pnl.getD 0)).sum|
  let profitFactor := if grossLoss = 0 then grossWin else grossWin / grossLoss
  let longBets := (tTrades.filter (fun t => jsToLower t.outcome == "yes")).length
  let shortBets := (tTrades.filter (fun t => jsToLower t.outcome == "no")).length
  let lsRatio := if shortBets = 0 then (longBets : ℚ) else (longBets : ℚ) / shortBets
  let avgBet := (tTrades.map (fun t => t.matchedExecutionAmount.getD 0)).sum / tTrades.length
  let bestTrade := ((tTrades.map (fun t => t.pnl.getD 0)).max?).getD 0
  let worstTrade := ((tTrades.map (fun t => t.pnl.getD 0)).min?).getD 0
  let holdHours := tTrades.map (fun t =>
    let startDate := dateMs t.date
    let endDate :=
      match t.closedDate with
      | some cd => if cd ≠ "" then dateMs cd else now
      | none => now
    (endDate - startDate) / (1000 * 60 * 60))
  let positives := holdHours.filter (fun h => h > 0)
  let avgHold := if positives.length > 0 then positives.sum / positives.length else 0
  let dates := tTrades.map (fun t => dateMs t.date)
  let minDate := (dates.min?).getD 0
  let maxDate := (dates.max?).getD 0
  let daysDiff := max 1 ((maxDate - minDate) / (1000 * 60 * 60 * 24))
  let avgTradesPerDay := (tTrades.length : ℚ) / daysDiff
  { name := trader
    totalPnl := totalPnl
    winRate := winRate
    profitFactor := profitFactor
    avgHoldingTimeHours := avgHold
    longShortRatio := lsRatio
    avgTradesPerDay := avgTradesPerDay
    totalAttempts := attemptsByTrader trader
    bestTrade := bestTrade
    worstTrade := worstTrade
    avgSuccessfulBet := avgBet
    favoriteCategory := none }

/-- `[...].sort((a, b) => new Date(a.date).getTime() - new Date(b.date).getTime())`:
the stable ascending sort by parsed date (ES2019 `Array.prototype.sort` is
stable; `insertionSort` is the stable sort of the same total preorder). -/
def sortByDate (dateMs : String → ℚ) (l : List ProcessedTrade) : List ProcessedTrade :=
  List.insertionSort (fun a b => dateMs a.date ≤ dateMs b.date) l

/-- The successful trades sorted by date (line 240). -/
def sortedSuccessOf (dateMs : String → ℚ) (trades : List ProcessedTrade) :
    List ProcessedTrade :=
  sortByDate dateMs (successfulTradesOf trades)

/-- The overall time-series walk (lines 242-257), carrying the running PnL
and win counts; `locDate` abstracts `toLocaleDateString`. -/
def overallSeriesAux (dateMs : String → ℚ) (locDate : String → String)
    (runningPnl : ℚ) (winCount totalCount : ℕ) :
    List ProcessedTrade → List TimeSeriesPoint
  | [] => []
  | t :: rest =>
    let runningPnl' := runningPnl + t.pnl.getD 0
    let winCount' := if t.pnl.getD 0 > 0 then winCount + 1 else winCount
    let totalCount' := totalCount + 1
    { date := locDate t.date
      timestamp := dateMs t.date
      value := runningPnl'
      winRate := some (((winCount' : ℚ) / totalCount') * 100)
      trader := none } :: overallSeriesAux dateMs locDate runningPnl' winCount' totalCount' rest

/-- `overallTimeSeries` (lines 238-257). -/
def overallTimeSeriesOf (dateMs : String → ℚ) (locDate : String → String)
    (trades : List ProcessedTrade) : List TimeSeriesPoint :=
  overallSeriesAux dateMs locDate 0 0 0 (sortedSuccessOf dateMs trades)

/-- One trader's cumulative walk (lines 263-283), emitting the PnL point
and the win-rate point of each trade. -/
def traderSeriesAux (dateMs : String → ℚ) (locDate : String → String) (trader : String)
    (tPnl : ℚ) (tWins tCount : ℕ) :
    List ProcessedTrade → List TimeSeriesPoint × List TimeSeriesPoint
  | [] => ([], [])
  | t :: rest =>
    let tPnl' := tPnl + t.pnl.getD 0
    let tWins' := if t.pnl.getD 0 > 0 then tWins + 1 else tWins
    let tCount' := tCount + 1
    let pt : TimeSeriesPoint :=
      { date := locDate t.date
        timestamp := dateMs t.date
        value := 0
        winRate := none
        trader := some trader }
    let rest' := traderSeriesAux dateMs locDate trader tPnl' tWins' tCount' rest
    ({ pt with value := tPnl' } :: rest'.1,
     { pt with value := ((tWins' : ℚ) / tCount') * 100 } :: rest'.2)

/-- One trader's cumulative PnL series. -/
def traderPnlSeries (dateMs : String → ℚ) (locDate : String → String)
    (trades : List ProcessedTrade) (trader : String) : List TimeSeriesPoint :=
  (traderSeriesAux dateMs locDate trader 0 0 0
    (sortByDate dateMs (tradesByTraderOf trades trader))).1

/-- One trader's cumulative win-rate series. -/
def traderWinRateSeries (dateMs : String → ℚ) (locDate : String → String)
    (trades : List ProcessedTrade) (trader : String) : List TimeSeriesPoint :=
  (traderSeriesAux dateMs locDate trader 0 0 0
    (sortByDate dateMs (tradesByTraderOf trades trader))).2

/-- The result record of `calculateAnalytics` (lines 311-317).  The
discrete `dailyTradeCounts` series, which no stated property concerns, is
not modelled. -/
structure AnalyticsResult where
  traderStats : List TraderStats
  overallTimeSeries : List TimeSeriesPoint
  pnlOverTimeByTrader : List TimeSeriesPoint
  winRateOverTimeByTrader : List TimeSeriesPoint

/-- `calculateAnalytics` (lines 161-318) over the abstracted `Date`
collaborators. -/
def calculateAnalytics (dateMs : String → ℚ) (locDate : String → String) (now : ℚ)
    (trades : List ProcessedTrade) : AnalyticsResult :=
  let attempts := attemptsByTraderOf trades
  let traders := analyticsTraders trades
  { traderStats := traders.map (buildTraderStats dateMs now trades attempts)
    overallTimeSeries := overallTimeSeriesOf dateMs locDate trades
    pnlOverTimeByTrader := (traders.map (traderPnlSeries dateMs locDate trades)).flatten
    winRateOverTimeByTrader := (traders.map (traderWinRateSeries dateMs locDate trades)).flatten }

/-! ## CSV export (`exportToCSV`, lines 541-564) -/

/-- A CSV cell value as handed to `Papa.unparse`: a number or a string. -/
inductive Cell
  | num (q : ℚ)
  | str (s : String)
deriving DecidableEq

/-- `value || ''` on a `number | undefined` field: a defined nonzero number
passes through, `undefined` and `0` become the empty string. -/
def orEmptyCell (o : Option ℚ) : Cell :=
  match o with
  | some x => if x = 0 then Cell.str "" else Cell.num x
  | none => Cell.str ""

/-- `Number.prototype.toFixed(digits)`: decimal string with `digits`
fractional digits, rounding to nearest with ties toward the larger
scaled integer, sign emitted first. -/
def toFixed (digits : ℕ) (q : ℚ) : String :=
  let sgn := if q < 0 then "-" else ""
  let n := (Rat.floor (|q| * (10 : ℚ) ^ digits + 1/2)).toNat
  let base := 10 ^ digits
  let fracStr := toString (n % base)
  let pad := String.mk (List.replicate (digits - fracStr.length) '0')
  if digits = 0 then sgn ++ toString (n / base)
  else sgn ++ toString (n / base) ++ "." ++ pad ++ fracStr

/-- The serialized spelling of a `TradeStatus`. -/
def statusStr : TradeStatus → String
  | TradeStatus.success => "Success"
  | TradeStatus.failed => "Failed"
  | TradeStatus.pending => "Pending/Skipped"
  | TradeStatus.missing => "Not Executed"

/-- The serialized spelling of a position status. -/
def posStatusStr : PosStatus → String
  | PosStatus.active => "Active"
  | PosStatus.closed => "Closed"
  | PosStatus.unmatched => "None"

/-- The serialized spelling of a match confidence. -/
def confidenceStr : Confidence → String
  | Confidence.exactActivity => "Exact (Activity)"
  | Confidence.inferredPosition => "Inferred (Position)"
  | Confidence.confNone => "None"

/-- The serialized spelling of a result tag. -/
def resultStr : TradeResult → String
  | TradeResult.win => "WIN"
  | TradeResult.loss => "LOSS"
  | TradeResult.opn => "OPEN"

/-- The serialized spelling of a market category. -/
def categoryStr : MarketCategory → String
  | MarketCategory.sport => "Sport"
  | MarketCategory.nonSport => "Non-Sport"

/-- The per-trade row mapping of `exportToCSV` (lines 542-564), columns in
source order. -/
def exportRow (t : ProcessedTrade) : List (String × Cell) :=
  [("Date", Cell.str t.date),
   ("Trader", Cell.str t.traderName),
   ("Action", Cell.str t.action),
   ("Outcome", Cell.str t.outcome),
   ("Category", Cell.str (categoryStr t.category)),
   ("Signal Amount", Cell.num t.amount),
   ("Total Attempted", orEmptyCell t.totalAttemptedAmount),
   ("Exec Amount", orEmptyCell t.matchedExecutionAmount),
   ("Exec Price", orEmptyCell t.matchedExecutionPrice),
   ("Shares", orEmptyCell t.shares),
   ("Market", Cell.str t.marketTitle),
   ("Status", Cell.str (statusStr t.status)),
   ("Failure Reason", Cell.str t.failureReason),
   ("Matched Status", Cell.str (posStatusStr t.matchedPositionStatus)),
   ("Result", Cell.str (match t.result with
     | some r => resultStr r
     | none => "")),
   ("Match Type", Cell.str (confidenceStr t.matchConfidence)),
   ("PnL", Cell.str (match t.pnl with
     | some p => if p ≠ 0 then toFixed 2 p else ""
     | none => "")),
   ("Current Value", Cell.str (match t.currentValue with
     | some v => if v ≠ 0 then toFixed 2 v else ""
     | none => "")),
   ("Latency (s)", Cell.str (match t.latencySeconds with
     | some v => if v ≠ 0 then toFixed 1 v else ""
     | none => "")),
   ("Tx Hash", Cell.str (t.matchedTxHash.getD "")),
   ("Link", Cell.str t.marketUrl)]

/-! ## Statement vocabulary -/

/-- Record-level eligibility of an activity row in Step 1: side equal to
the signal's (uppercased) action, mutual-substring slug match, and outcome
agreement whenever both simplified outcomes are binary yes/no. -/
def eligRec (simpleSide simpleSlug simpleOutcome : String) (h : PortfolioRow) : Bool :=
  (h.side.map jsToUpper == some simpleSide) &&
  (jsIncludes (simplify h.slug) simpleSlug || jsIncludes simpleSlug (simplify h.slug)) &&
  !(simplifyOpt h.outcome != "" && simpleOutcome != "" &&
    (simplifyOpt h.outcome == "yes" || simplifyOpt h.outcome == "no") &&
    (simpleOutcome == "yes" || simpleOutcome == "no") &&
    simplifyOpt h.outcome != simpleOutcome)

/-- The time distance used by Step 1 (`Math.abs((h.timestamp || 0) - tradeTime)`). -/
def actDiff (tradeTime : ℚ) (h : PortfolioRow) : ℚ := |jsOrQ h.timestamp 0 - tradeTime|

/-- Index-level eligibility: an in-range, unclaimed, record-eligible index. -/
def eligAt (used : List ℕ) (simpleSide simpleSlug simpleOutcome : String)
    (hist : List PortfolioRow) (j : ℕ) : Prop :=
  j < hist.length ∧ used.contains j = false ∧
    eligRec simpleSide simpleSlug simpleOutcome (hist.getD j dfltRow) = true

/-- The sum of stated amounts of all extracted signals of one
(trader, simplified slug) pair, counting failed and successful signals
alike (only the noise guard of line 261 excludes a signal). -/
def sumAttempts (sigs : List Signal) (trader simpleSlug : String) : ℚ :=
  ((sigs.filter fun g =>
      !(g.details.marketSlug == "" && g.details.marketTitle == "") &&
      g.traderName == trader && simplify g.details.marketSlug == simpleSlug).map
    (fun g => g.details.amount)).sum

/-- Distinctness of claimed activity indices between two records. -/
def distinctClaim (t₁ t₂ : ProcessedTrade) : Prop :=
  ∀ i j, t₁.matchedActivityIndex = some i → t₂.matchedActivityIndex = some j → i ≠ j

/-! ## Concrete fixtures used by the evaluation theorems -/

/-- A placeholder trade record, only ever used as the out-of-range default
of a `getD` on a concretely computed list. -/
def dTrade : ProcessedTrade :=
  { date := "", closedDate := none, traderName := "", action := "", outcome := "", amount := 0,
    marketTitle := "", marketSlug := "", marketUrl := "", status := TradeStatus.missing,
    failureReason := "", category := MarketCategory.nonSport,
    matchedPositionStatus := PosStatus.unmatched, pnl := none, currentValue := none,
    matchedTxHash := none, matchedExecutionPrice := none, matchedExecutionAmount := none,
    shares := none, latencySeconds := none, matchConfidence := Confidence.confNone,
    result := none, matchedActivityIndex := none, totalAttemptedAmount := none }

/-- A placeholder time-series point for `getD` on computed series. -/
def dPt : TimeSeriesPoint :=
  { date := "", timestamp := 0, value := 0, winRate := none, trader := none }

/-- The `Date`-parse stub used by concrete aggregator runs: the string
length in milliseconds (any concrete monotone-enough parse works). -/
def dLen : String → ℚ := fun s => (s.length : ℚ)

/-- The `toLocaleDateString` stub used by concrete aggregator runs. -/
def dLoc : String → String := fun s => s

/-- A raw activity-history row: BUY "Yes" on slug `abc`, filled 300 s after
the signal at average price 1/2 for 100 shares (50 USDC). -/
def actRowA : PortfolioRow :=
  { Category := "ACTIVITY_HISTORY", asset := some "A1", slug := "abc",
    outcome := some "Yes", side := some "BUY", timestamp := some 1300,
    avgPrice := some (1/2), size := some 100, usdcSize := some 50,
    transactionHash := some "0xabc" }

/-- A raw closed-position row for the same market with NO settlement price
cell, NO quoted price cell, size 100 and current value 95 (ratio 0.95) and
a positive realized PnL: the spec's Scenario D row. -/
def closedRowD : PortfolioRow :=
  { Category := "CLOSED_POSITION", asset := some "A1", slug := "abc",
    outcome := some "Yes", size := some 100, currentValue := some 95,
    realizedPnl := some 40 }

/-- The Scenario D signal: a successful BUY "Yes" $50 on slug `abc` at
unix time 1000. -/
def sigD : Signal :=
  { date := "d", time := 1000, traderName := "T", category := MarketCategory.nonSport,
    details :=
      { action := "BUY", outcome := "Yes", amount := 50, marketTitle := "Abc",
        marketUrl := "", marketSlug := "abc", status := TradeStatus.success,
        failureReason := "" } }

/-- A signal whose stated amount is 0 dollars. -/
def sigZ : Signal :=
  { date := "d", time := 1000, traderName := "T", category := MarketCategory.nonSport,
    details :=
      { action := "BUY", outcome := "Yes", amount := 0, marketTitle := "M",
        marketUrl := "", marketSlug := "m", status := TradeStatus.success,
        failureReason := "" } }

/-- A signal whose market slug is truthy but entirely non-alphanumeric
(simplifies to the empty key), with a nonzero stated amount. -/
def sigDash : Signal :=
  { date := "d", time := 1000, traderName := "T", category := MarketCategory.nonSport,
    details :=
      { action := "BUY", outcome := "Yes", amount := 20, marketTitle := "M",
        marketUrl := "", marketSlug := "-", status := TradeStatus.success,
        failureReason := "" } }

/-- Scenario E, first signal: failed attempt of $20 on slug `m`. -/
def sigE1 : Signal :=
  { date := "d1", time := 1000, traderName := "T", category := MarketCategory.nonSport,
    details :=
      { action := "BUY", outcome := "Yes", amount := 20, marketTitle := "M",
        marketUrl := "", marketSlug := "m", status := TradeStatus.failed,
        failureReason := "Insufficient Balance" } }

/-- Scenario E, second signal: successful attempt of $30 on the same slug. -/
def sigE2 : Signal :=
  { date := "d2", time := 2000, traderName := "T", category := MarketCategory.nonSport,
    details :=
      { action := "BUY", outcome := "Yes", amount := 30, marketTitle := "M",
        marketUrl := "", marketSlug := "m", status := TradeStatus.success,
        failureReason := "" } }

/-- A failed signal (no reconciliation happens for it). -/
def sigF : Signal :=
  { date := "d", time := 1000, traderName := "T", category := MarketCategory.nonSport,
    details :=
      { action := "BUY", outcome := "Yes", amount := 10, marketTitle := "M",
        marketUrl := "", marketSlug := "m", status := TradeStatus.failed,
        failureReason := "Generic Failure" } }

/-- A reconciled trade of trader `T` whose status is Failed (so it is not
a successful trade for the aggregator). -/
def tFail : ProcessedTrade :=
  { dTrade with
    date := "d1", traderName := "T", action := "BUY", outcome := "Yes", amount := 20,
    marketTitle := "M", marketSlug := "m", status := TradeStatus.failed,
    failureReason := "Insufficient Balance" }

/-- A successful reconciled trade of trader `T` (closed, Sport, PnL 10). -/
def tSucc1 : ProcessedTrade :=
  { dTrade with
    date := "a", traderName := "T", action := "BUY", outcome := "Yes", amount := 10,
    marketTitle := "M", marketSlug := "m", status := TradeStatus.success,
    category := MarketCategory.sport, matchedPositionStatus := PosStatus.closed,
    pnl := some 10, matchConfidence := Confidence.exactActivity,
    result := some TradeResult.win, matchedActivityIndex := some 0 }

/-- A second successful reconciled trade of trader `T` (PnL 5, later date). -/
def tSucc2 : ProcessedTrade :=
  { dTrade with
    date := "bb", traderName := "T", action := "BUY", outcome := "No", amount := 7,
    marketTitle := "M2", marketSlug := "m2", status := TradeStatus.success,
    category := MarketCategory.sport, matchedPositionStatus := PosStatus.closed,
    pnl := some 5, matchConfidence := Confidence.exactActivity,
    result := some TradeResult.win, matchedActivityIndex := some 1 }

/-- A successful trade whose computed PnL is exactly 0. -/
def tZero : ProcessedTrade :=
  { dTrade with
    date := "a", traderName := "T", action := "BUY", outcome := "Yes", amount := 10,
    marketTitle := "M", marketSlug := "m", status := TradeStatus.success,
    matchedPositionStatus := PosStatus.closed, pnl := some 0,
    matchConfidence := Confidence.exactActivity, result := some TradeResult.loss,
    matchedActivityIndex := some 0 }

/-- A successful trade with PnL 3/2 (serializes as "1.50"). -/
def tPnl : ProcessedTrade :=
  { dTrade with
    date := "a", traderName := "T", action := "BUY", outcome := "Yes", amount := 10,
    marketTitle := "M", marketSlug := "m", status := TradeStatus.success,
    matchedPositionStatus := PosStatus.closed, pnl := some (3/2),
    matchConfidence := Confidence.exactActivity, result := some TradeResult.win,
    matchedActivityIndex := some 0 }

/-- An activity row matching `sigW` at distance 300 s (the only candidate). -/
def actRowW : PortfolioRow :=
  { Category := "ACTIVITY_HISTORY", asset := some "A2", slug := "abc",
    outcome := some "Yes", side := some "BUY", timestamp := some 1300,
    avgPrice := some (2/5), size := some 125 }

/-! ## Lemmas -/

/-- The PnL resolver never classifies a closed position as OPEN. -/
theorem pnlResolverExit_ne_opn (cp : PortfolioRow) :
    (pnlResolverExit cp).2 ≠ TradeResult.opn := by
  unfold pnlResolverExit
  rcases cp.curPrice with _ | q
  · rcases cp.price with _ | p <;> dsimp only <;> split_ifs <;> simp
  · dsimp only
    split_ifs <;> simp

/-- `secondPass` only touches `totalAttemptedAmount`. -/
theorem secondPass_fields (a : String → ℚ) (t : ProcessedTrade) :
    (secondPass a t).result = t.result ∧
    (secondPass a t).matchedPositionStatus = t.matchedPositionStatus ∧
    (secondPass a t).pnl = t.pnl ∧
    (secondPass a t).matchConfidence = t.matchConfidence ∧
    (secondPass a t).matchedActivityIndex = t.matchedActivityIndex ∧
    (secondPass a t).traderName = t.traderName ∧
    (secondPass a t).marketSlug = t.marketSlug := by
  unfold secondPass
  split
  · dsimp only
    split <;> simp
  · simp

/-- The exact-match active valuation marks the status Active. -/
@[simp] theorem exactActiveOutcome_matchedStatus (e s : ℚ) (base : MatchOutcome)
    (ap : PortfolioRow) : (exactActiveOutcome e s base ap).matchedStatus = PosStatus.active := by
  simp [exactActiveOutcome]

/-- The exact-match active valuation marks the result OPEN. -/
@[simp] theorem exactActiveOutcome_result (e s : ℚ) (base : MatchOutcome)
    (ap : PortfolioRow) : (exactActiveOutcome e s base ap).result = some TradeResult.opn := by
  simp [exactActiveOutcome]

/-- The exact-match closed valuation marks the status Closed. -/
@[simp] theorem exactClosedOutcome_matchedStatus (e s : ℚ) (base : MatchOutcome)
    (cp : PortfolioRow) : (exactClosedOutcome e s base cp).matchedStatus = PosStatus.closed := by
  simp [exactClosedOutcome]

/-- The exact-match closed valuation takes its result from the PnL resolver. -/
@[simp] theorem exactClosedOutcome_result (e s : ℚ) (base : MatchOutcome)
    (cp : PortfolioRow) :
    (exactClosedOutcome e s base cp).result = some (pnlResolverExit cp).2 := by
  simp [exactClosedOutcome]

/-- The inferred active match marks the status Active. -/
@[simp] theorem inferredActiveOutcome_matchedStatus (base : MatchOutcome)
    (ap : PortfolioRow) : (inferredActiveOutcome base ap).matchedStatus = PosStatus.active := by
  unfold inferredActiveOutcome
  split <;> simp

/-- The inferred active match marks the result OPEN. -/
@[simp] theorem inferredActiveOutcome_result (base : MatchOutcome)
    (ap : PortfolioRow) : (inferredActiveOutcome base ap).result = some TradeResult.opn := by
  unfold inferredActiveOutcome
  split <;> simp

/-- The inferred closed match marks the status Closed. -/
@[simp] theorem inferredClosedOutcome_matchedStatus (base : MatchOutcome)
    (cp : PortfolioRow) : (inferredClosedOutcome base cp).matchedStatus = PosStatus.closed := by
  unfold inferredClosedOutcome
  dsimp only
  split <;> simp

/-- The inferred closed match never produces OPEN unless it was carried in. -/
theorem inferredClosedOutcome_result_ne_opn (base : MatchOutcome) (cp : PortfolioRow)
    (hb : base.result ≠ some TradeResult.opn) :
    (inferredClosedOutcome base cp).result ≠ some TradeResult.opn := by
  unfold inferredClosedOutcome
  dsimp only
  split
  · repeat' split
    all_goals simp
  · simpa using hb

/-- Per-signal shape of the reconciliation outcome: OPEN exactly on an
active match, nothing on no match, never OPEN on a closed match, and no
PnL without a position match. -/
theorem matchSignal_inv (aps cps hist : List PortfolioRow) (used : List ℕ) (sig : Signal) :
    ((matchSignal aps cps hist used sig).1.result = some TradeResult.opn ↔
      (matchSignal aps cps hist used sig).1.matchedStatus = PosStatus.active) ∧
    ((matchSignal aps cps hist used sig).1.matchedStatus = PosStatus.unmatched →
      (matchSignal aps cps hist used sig).1.result = none ∧
      (matchSignal aps cps hist used sig).1.pnl = none) ∧
    ((matchSignal aps cps hist used sig).1.matchedStatus = PosStatus.closed →
      (matchSignal aps cps hist used sig).1.result ≠ some TradeResult.opn) := by
  unfold matchSignal
  dsimp only
  split
  · simp
  · split
    · split
      · simp
      · split
        · rename_i cp _
          have := pnlResolverExit_ne_opn cp
          simp [this]
        · simp
    · split
      · simp
      · split
        · rename_i cp _
          have h := inferredClosedOutcome_result_ne_opn
            { marketUrl := sig.details.marketUrl, status := sig.details.status,
              failureReason := sig.details.failureReason } cp (by simp)
          simp [h]
        · simp

@[simp] theorem mkTrade_matchedPositionStatus (sig : Signal) (m : MatchOutcome) :
    (mkTrade sig m).matchedPositionStatus = m.matchedStatus := rfl

@[simp] theorem mkTrade_pnl (sig : Signal) (m : MatchOutcome) :
    (mkTrade sig m).pnl = m.pnl := rfl

@[simp] theorem mkTrade_result (sig : Signal) (m : MatchOutcome) :
    (mkTrade sig m).result = m.result := rfl

@[simp] theorem mkTrade_matchConfidence (sig : Signal) (m : MatchOutcome) :
    (mkTrade sig m).matchConfidence = m.matchConfidence := rfl

@[simp] theorem mkTrade_matchedActivityIndex (sig : Signal) (m : MatchOutcome) :
    (mkTrade sig m).matchedActivityIndex = m.matchedActivityIndex := rfl

@[simp] theorem mkTrade_traderName (sig : Signal) (m : MatchOutcome) :
    (mkTrade sig m).traderName = sig.traderName := rfl

@[simp] theorem mkTrade_marketSlug (sig : Signal) (m : MatchOutcome) :
    (mkTrade sig m).marketSlug = sig.details.marketSlug := rfl

@[simp] theorem mkTrade_totalAttemptedAmount (sig : Signal) (m : MatchOutcome) :
    (mkTrade sig m).totalAttemptedAmount = none := rfl

/-- Any property of every freshly reconciled record propagates through the
first-pass fold. -/
theorem mem_foldl_trades (P : ProcessedTrade → Prop) (aps cps hist : List PortfolioRow)
    (sigs : List Signal) (st : RunState)
    (h0 : ∀ t ∈ st.trades, P t)
    (hnew : ∀ used sig, P (mkTrade sig (matchSignal aps cps hist used sig).1)) :
    ∀ t ∈ (sigs.foldl (stepSignal aps cps hist) st).trades, P t := by
  induction sigs generalizing st with
  | nil => simpa using h0
  | cons s ss ih =>
    intro t ht
    rw [List.foldl_cons] at ht
    refine ih _ ?_ t ht
    intro t' ht'
    unfold stepSignal at ht'
    split at ht'
    · exact h0 t' ht'
    · dsimp only at ht'
      rcases List.mem_append.1 ht' with h | h
      · exact h0 t' h
      · rw [List.mem_singleton] at h
        subst h
        exact hnew _ _

/-- Any property of every freshly reconciled record, preserved by the
second pass, holds of every output record of a run. -/
theorem mem_processSignals (P : ProcessedTrade → Prop) (aps cps hist : List PortfolioRow)
    (sigs : List Signal)
    (hnew : ∀ used sig, P (mkTrade sig (matchSignal aps cps hist used sig).1))
    (hpres : ∀ a t, P t → P (secondPass a t)) :
    ∀ t ∈ processSignals aps cps hist sigs, P t := by
  intro t ht
  unfold processSignals at ht
  dsimp only at ht
  rcases List.mem_map.1 ht with ⟨t₀, ht₀, rfl⟩
  exact hpres _ _ (mem_foldl_trades P aps cps hist sigs initialState
    (by simp [initialState]) hnew t₀ ht₀)

@[simp] theorem exactActiveOutcome_matchConfidence (e s : ℚ) (base : MatchOutcome)
    (ap : PortfolioRow) :
    (exactActiveOutcome e s base ap).matchConfidence = base.matchConfidence := by
  simp [exactActiveOutcome]

@[simp] theorem exactActiveOutcome_matchedActivityIndex (e s : ℚ) (base : MatchOutcome)
    (ap : PortfolioRow) :
    (exactActiveOutcome e s base ap).matchedActivityIndex = base.matchedActivityIndex := by
  simp [exactActiveOutcome]

@[simp] theorem exactClosedOutcome_matchConfidence (e s : ℚ) (base : MatchOutcome)
    (cp : PortfolioRow) :
    (exactClosedOutcome e s base cp).matchConfidence = base.matchConfidence := by
  simp [exactClosedOutcome]

@[simp] theorem exactClosedOutcome_matchedActivityIndex (e s : ℚ) (base : MatchOutcome)
    (cp : PortfolioRow) :
    (exactClosedOutcome e s base cp).matchedActivityIndex = base.matchedActivityIndex := by
  simp [exactClosedOutcome]

@[simp] theorem inferredActiveOutcome_matchConfidence (base : MatchOutcome)
    (ap : PortfolioRow) :
    (inferredActiveOutcome base ap).matchConfidence = Confidence.inferredPosition := by
  unfold inferredActiveOutcome
  split <;> simp

@[simp] theorem inferredActiveOutcome_matchedActivityIndex (base : MatchOutcome)
    (ap : PortfolioRow) :
    (inferredActiveOutcome base ap).matchedActivityIndex = base.matchedActivityIndex := by
  unfold inferredActiveOutcome
  split <;> simp

@[simp] theorem inferredClosedOutcome_matchConfidence (base : MatchOutcome)
    (cp : PortfolioRow) :
    (inferredClosedOutcome base cp).matchConfidence = Confidence.inferredPosition := by
  unfold inferredClosedOutcome
  dsimp only
  split <;> simp

@[simp] theorem inferredClosedOutcome_matchedActivityIndex (base : MatchOutcome)
    (cp : PortfolioRow) :
    (inferredClosedOutcome base cp).matchedActivityIndex = base.matchedActivityIndex := by
  unfold inferredClosedOutcome
  dsimp only
  split <;> simp

/-- A claimed index coming out of the scan is never an already-claimed one:
the scan's first guard skips claimed indices, so the incumbent can only
ever be replaced by an unclaimed index. -/
theorem scanActivities_some_unused (used : List ℕ) (s1 s2 s3 : String) (tt : ℚ) :
    ∀ (l : List PortfolioRow) (k : ℕ) (acc : Option ℕ × ℚ),
      (∀ i, acc.1 = some i → used.contains i = false) →
      ∀ i, (scanActivities used s1 s2 s3 tt k acc l).1 = some i → used.contains i = false := by
  intro l
  induction l with
  | nil => intro k acc hacc i hi; exact hacc i hi
  | cons h rest ih =>
    intro k acc hacc i hi
    rw [scanActivities] at hi
    refine ih (k + 1) _ ?_ i hi
    intro j hj
    unfold activityStep at hj
    by_cases hc : used.contains k
    · rw [if_pos hc] at hj
      exact hacc j hj
    · rw [if_neg hc] at hj
      split at hj
      · exact hacc j hj
      · dsimp only at hj
        split at hj
        · exact hacc j hj
        · split at hj
          · split at hj
            · exact hacc j hj
            · dsimp only at hj
              cases Option.some.inj hj
              simpa using hc
          · exact hacc j hj

/-- The shape of one reconciliation step with respect to the claim set:
either no activity row is claimed and the set is unchanged, or exactly the
returned fresh index is pushed onto it; and the 'Exact (Activity)'
confidence tag coincides with a claimed index being present. -/
theorem matchSignal_claim_spec (aps cps hist : List PortfolioRow) (used : List ℕ)
    (sig : Signal) :
    ((matchSignal aps cps hist used sig).1.matchConfidence = Confidence.exactActivity ↔
      ((matchSignal aps cps hist used sig).1.matchedActivityIndex).isSome = true) ∧
    (∀ i, (matchSignal aps cps hist used sig).1.matchedActivityIndex = some i →
      used.contains i = false ∧ (matchSignal aps cps hist used sig).2 = i :: used) ∧
    ((matchSignal aps cps hist used sig).1.matchedActivityIndex = none →
      (matchSignal aps cps hist used sig).2 = used) := by
  unfold matchSignal
  dsimp only
  split
  · simp
  · split
    · rename_i bestIdx hbest
      have hun : used.contains bestIdx = false := by
        refine scanActivities_some_unused used _ _ _ _ hist 0 (none, 3600) ?_ bestIdx hbest
        intro i hi
        simp at hi
      split
      · refine ⟨by simp, ?_, by simp⟩
        intro i hi
        simp at hi
        subst hi
        exact ⟨hun, rfl⟩
      · split
        · refine ⟨by simp, ?_, by simp⟩
          intro i hi
          simp at hi
          subst hi
          exact ⟨hun, rfl⟩
        · refine ⟨by simp, ?_, by simp⟩
          intro i hi
          simp at hi
          subst hi
          exact ⟨hun, rfl⟩
    · split
      · simp
      · split <;> simp

/-- The first-pass fold keeps every claimed index registered in the claim
set and all claimed indices pairwise distinct. -/
theorem foldl_exclusive (aps cps hist : List PortfolioRow) (sigs : List Signal) :
    ∀ (st : RunState),
      (∀ t ∈ st.trades, ∀ i, t.matchedActivityIndex = some i → st.used.contains i = true) →
      st.trades.Pairwise distinctClaim →
      (∀ t ∈ (sigs.foldl (stepSignal aps cps hist) st).trades, ∀ i,
          t.matchedActivityIndex = some i →
          (sigs.foldl (stepSignal aps cps hist) st).used.contains i = true) ∧
      ((sigs.foldl (stepSignal aps cps hist) st).trades.Pairwise distinctClaim) := by
  induction sigs with
  | nil => intro st h1 h2; exact ⟨h1, h2⟩
  | cons s ss ih =>
    intro st h1 h2
    rw [List.foldl_cons]
    by_cases hskip : s.details.marketSlug = "" ∧ s.details.marketTitle = ""
    · rw [stepSignal, if_pos hskip]
      exact ih st h1 h2
    · rw [stepSignal, if_neg hskip]
      dsimp only
      have hspec := matchSignal_claim_spec aps cps hist st.used s
      rcases hmi : (matchSignal aps cps hist st.used s).1.matchedActivityIndex with _ | i0
      · have hused : (matchSignal aps cps hist st.used s).2 = st.used := hspec.2.2 hmi
        refine ih _ ?_ ?_
        · intro t ht i hidx
          rw [hused]
          rcases List.mem_append.1 ht with hmem | hmem
          · exact h1 t hmem i hidx
          · rw [List.mem_singleton] at hmem
            subst hmem
            rw [mkTrade_matchedActivityIndex, hmi] at hidx
            cases hidx
        · refine List.pairwise_append.2 ⟨h2, List.pairwise_singleton _ _, ?_⟩
          intro a ha b hb
          rw [List.mem_singleton] at hb
          subst hb
          intro i j _ hj
          rw [mkTrade_matchedActivityIndex, hmi] at hj
          cases hj
      · obtain ⟨hun, hused⟩ := hspec.2.1 i0 hmi
        refine ih _ ?_ ?_
        · intro t ht i hidx
          rw [hused]
          rcases List.mem_append.1 ht with hmem | hmem
          · have hmem' := h1 t hmem i hidx
            have hm : i ∈ st.used := by simpa using hmem'
            simp [List.contains_cons, hm]
          · rw [List.mem_singleton] at hmem
            subst hmem
            rw [mkTrade_matchedActivityIndex, hmi] at hidx
            cases Option.some.inj hidx
            simp [List.contains_cons]
        · refine List.pairwise_append.2 ⟨h2, List.pairwise_singleton _ _, ?_⟩
          intro a ha b hb
          rw [List.mem_singleton] at hb
          subst hb
          intro i j hi hj
          rw [mkTrade_matchedActivityIndex, hmi] at hj
          cases Option.some.inj hj
          have hreg := h1 a ha i hi
          intro hcon
          subst hcon
          rw [hreg] at hun
          cases hun

/-- C1: in any single run over a fixed signal order, each activity record
is claimed by at most one signal: no two output records with
'Exact (Activity)' confidence reference the same activity record, and the
'Exact (Activity)' tag is exactly the presence of a claimed record. -/
theorem claim1_exact_activity_exclusive (aps cps hist : List PortfolioRow)
    (sigs : List Signal) :
    ((processSignals aps cps hist sigs).Pairwise fun t₁ t₂ =>
      t₁.matchConfidence = Confidence.exactActivity →
      t₂.matchConfidence = Confidence.exactActivity →
      t₁.matchedActivityIndex ≠ t₂.matchedActivityIndex) ∧
    ∀ t ∈ processSignals aps cps hist sigs,
      (t.matchConfidence = Confidence.exactActivity ↔ t.matchedActivityIndex.isSome = true) := by
  have hiff : ∀ t ∈ (firstPass aps cps hist sigs).trades,
      (t.matchConfidence = Confidence.exactActivity ↔ t.matchedActivityIndex.isSome = true) := by
    refine mem_foldl_trades _ aps cps hist sigs initialState (by simp [initialState]) ?_
    intro used sig
    rw [mkTrade_matchConfidence, mkTrade_matchedActivityIndex]
    exact (matchSignal_claim_spec aps cps hist used sig).1
  have hpw : (firstPass aps cps hist sigs).trades.Pairwise distinctClaim :=
    (foldl_exclusive aps cps hist sigs initialState (by simp [initialState])
      (by simp [initialState])).2
  constructor
  · unfold processSignals
    dsimp only
    refine List.Pairwise.map _ ?_
      (hpw.imp_of_mem (fun {a b} ha hb hab =>
        (⟨hab, hiff a ha, hiff b hb⟩ :
          distinctClaim a b ∧
          (a.matchConfidence = Confidence.exactActivity ↔ a.matchedActivityIndex.isSome = true) ∧
          (b.matchConfidence = Confidence.exactActivity ↔ b.matchedActivityIndex.isSome = true))))
    intro a b hab
    obtain ⟨hd, hia, hib⟩ := hab
    intro hca hcb
    have hfa := secondPass_fields (firstPass aps cps hist sigs).attempts a
    have hfb := secondPass_fields (firstPass aps cps hist sigs).attempts b
    rw [hfa.2.2.2.2.1, hfb.2.2.2.2.1]
    rw [hfa.2.2.2.1] at hca
    rw [hfb.2.2.2.1] at hcb
    obtain ⟨i, hi⟩ := Option.isSome_iff_exists.1 (hia.1 hca)
    obtain ⟨j, hj⟩ := Option.isSome_iff_exists.1 (hib.1 hcb)
    rw [hi, hj]
    intro hcon
    exact hd i j hi hj (Option.some.inj hcon)
  · intro t ht
    unfold processSignals at ht
    dsimp only at ht
    rcases List.mem_map.1 ht with ⟨t₀, ht₀, rfl⟩
    have hf := secondPass_fields (firstPass aps cps hist sigs).attempts t₀
    rw [hf.2.2.2.1, hf.2.2.2.2.1]
    exact hiff t₀ ht₀

/-- C4: the PnL of an output record is defined only when a position match
(Active or Closed) was found; whenever no position match was found the
PnL is undefined (hence in particular never zero). -/
theorem claim4_pnl_only_with_position (aps cps hist : List PortfolioRow)
    (sigs : List Signal) (t : ProcessedTrade) (ht : t ∈ processSignals aps cps hist sigs) :
    (t.pnl.isSome = true →
      t.matchedPositionStatus = PosStatus.active ∨ t.matchedPositionStatus = PosStatus.closed) ∧
    (t.matchedPositionStatus = PosStatus.unmatched → t.pnl = none) := by
  have hbase : t.matchedPositionStatus = PosStatus.unmatched → t.pnl = none := by
    refine mem_processSignals
      (fun t' => t'.matchedPositionStatus = PosStatus.unmatched → t'.pnl = none)
      aps cps hist sigs ?_ ?_ t ht
    · intro used sig
      rw [mkTrade_matchedPositionStatus, mkTrade_pnl]
      intro h
      exact ((matchSignal_inv aps cps hist used sig).2.1 h).2
    · intro a t' hP
      have hf := secondPass_fields a t'
      rw [hf.2.1, hf.2.2.1]
      exact hP
  refine ⟨?_, hbase⟩
  intro hsome
  rcases hst : t.matchedPositionStatus with _ | _ | _
  · exact Or.inl rfl
  · exact Or.inr rfl
  · rw [hbase hst] at hsome
    cases hsome

/-- C4 witness: a failed signal produces a record with no position match
and undefined PnL. -/
theorem claim4_witness :
    ((processSignals [] [] [] [sigF]).getD 0 dTrade).pnl = none := by
  have h := claim4_pnl_only_with_position [] [] [] [sigF]
    ((processSignals [] [] [] [sigF]).getD 0 dTrade) (by with_unfolding_all decide)
  exact h.2 (by with_unfolding_all decide)

/-- C10: an output record's result tag is 'OPEN' exactly when its matched
position status is 'Active'; an unmatched record has no result; a closed
record's result is never 'OPEN'. -/
theorem claim10_result_tag_vs_status (aps cps hist : List PortfolioRow)
    (sigs : List Signal) (t : ProcessedTrade) (ht : t ∈ processSignals aps cps hist sigs) :
    (t.result = some TradeResult.opn ↔ t.matchedPositionStatus = PosStatus.active) ∧
    (t.matchedPositionStatus = PosStatus.unmatched → t.result = none) ∧
    (t.matchedPositionStatus = PosStatus.closed → t.result ≠ some TradeResult.opn) := by
  refine mem_processSignals
    (fun t' =>
      (t'.result = some TradeResult.opn ↔ t'.matchedPositionStatus = PosStatus.active) ∧
      (t'.matchedPositionStatus = PosStatus.unmatched → t'.result = none) ∧
      (t'.matchedPositionStatus = PosStatus.closed → t'.result ≠ some TradeResult.opn))
    aps cps hist sigs ?_ ?_ t ht
  · intro used sig
    rw [mkTrade_matchedPositionStatus, mkTrade_result]
    have h := matchSignal_inv aps cps hist used sig
    exact ⟨h.1, fun hs => (h.2.1 hs).1, h.2.2⟩
  · intro a t' hP
    have hf := secondPass_fields a t'
    rw [hf.1, hf.2.1]
    exact hP

/-- C10 witness: the record of a failed signal has status 'None' and no
result tag. -/
theorem claim10_witness :
    ((processSignals [] [] [] [sigF]).getD 0 dTrade).result = none := by
  have h := claim10_result_tag_vs_status [] [] [] [sigF]
    ((processSignals [] [] [] [sigF]).getD 0 dTrade) (by with_unfolding_all decide)
  exact h.2.1 (by with_unfolding_all decide)

/-- C3 (code behaviour at the claim's scenario): after the Normalizer, a
closed position whose raw settlement-price cell is missing carries
`curPrice = 0` (a defined number), so the resolver's first branch fires:
for Scenario D's row (no curPrice, no extreme price, size 100, value 95,
positive realized PnL) the run yields exit price 0, result LOSS and
PnL (0 − 1/2)·100 = −50 — not the claimed exit 1 / Win. -/
theorem claim3_scenarioD_code_behaviour :
    (processSignals (parseInputData [closedRowD, actRowA]).1
      (parseInputData [closedRowD, actRowA]).2.1
      (parseInputData [closedRowD, actRowA]).2.2 [sigD]).map
        (fun t => (t.result, t.pnl, t.currentValue, t.matchedPositionStatus, t.matchConfidence)) =
      [(some TradeResult.loss, some (-50), some 0, PosStatus.closed,
        Confidence.exactActivity)] := by
  with_unfolding_all decide

/-- One scan iteration, rephrased: the incumbent is replaced exactly when
the index is unclaimed, the record is eligible, and its time distance
strictly beats the incumbent distance.  (In the source the outcome test
sits inside the distance test, but an outcome-mismatching record leaves
the incumbent untouched either way.) -/
theorem activityStep_eq (used : List ℕ) (s1 s2 s3 : String) (tt : ℚ) (acc : Option ℕ × ℚ)
    (idx : ℕ) (h : PortfolioRow) :
    activityStep used s1 s2 s3 tt acc idx h =
      if used.contains idx = false ∧ eligRec s1 s2 s3 h = true ∧ actDiff tt h < acc.2 then
        (some idx, actDiff tt h)
      else acc := by
  unfold activityStep actDiff
  by_cases h1 : used.contains idx = true
  · rw [if_pos h1, if_neg]
    rintro ⟨hc, -⟩
    rw [h1] at hc
    simp at hc
  · by_cases h2 : (h.side.map jsToUpper == some s1) = true
    · rw [if_neg h1, if_neg (show ¬((h.side.map jsToUpper != some s1) = true) by simp [bne, h2])]
      dsimp only
      by_cases h3 : (jsIncludes (simplify h.slug) s2 || jsIncludes s2 (simplify h.slug)) = true
      · rw [if_neg (show ¬((!(jsIncludes (simplify h.slug) s2 ||
            jsIncludes s2 (simplify h.slug))) = true) by simp [h3])]
        by_cases h4 : |jsOrQ h.timestamp 0 - tt| < acc.2
        · rw [if_pos h4]
          by_cases h5 : (simplifyOpt h.outcome != "" && s3 != "" &&
              (simplifyOpt h.outcome == "yes" || simplifyOpt h.outcome == "no") &&
              (s3 == "yes" || s3 == "no") &&
              simplifyOpt h.outcome != s3) = true
          · rw [if_pos h5, if_neg]
            rintro ⟨-, he, -⟩
            simp only [eligRec, Bool.and_eq_true] at he
            have hC := he.2
            rw [h5] at hC
            simp at hC
          · rw [if_neg h5, if_pos]
            refine ⟨by simpa using h1, ?_, h4⟩
            simp only [eligRec, Bool.and_eq_true]
            rw [Bool.not_eq_true] at h5
            exact ⟨⟨h2, h3⟩, by rw [h5]; rfl⟩
        · rw [if_neg h4, if_neg]
          rintro ⟨-, -, hd⟩
          exact h4 hd
      · rw [if_pos (show (!(jsIncludes (simplify h.slug) s2 ||
            jsIncludes s2 (simplify h.slug))) = true by simp [Bool.not_eq_true] at h3 ⊢; exact h3)]
        rw [if_neg]
        rintro ⟨-, he, -⟩
        simp only [eligRec, Bool.and_eq_true] at he
        exact h3 he.1.2
    · rw [if_neg h1, if_pos (show (h.side.map jsToUpper != some s1) = true by
        simp [bne]; simpa using h2)]
      rw [if_neg]
      rintro ⟨-, he, -⟩
      simp only [eligRec, Bool.and_eq_true] at he
      exact h2 he.1.1

/-- Full characterization of the scan from an arbitrary start state: either
no unclaimed eligible record beats the incumbent distance and the state is
returned unchanged, or the result is the first unclaimed eligible record
attaining the minimum distance among those beating the incumbent. -/
theorem scanActivities_spec (used : List ℕ) (s1 s2 s3 : String) (tt : ℚ) :
    ∀ (l : List PortfolioRow) (k : ℕ) (b : Option ℕ) (m : ℚ),
      (scanActivities used s1 s2 s3 tt k (b, m) l = (b, m) ∧
        (∀ t, t < l.length → used.contains (k + t) = false →
          eligRec s1 s2 s3 (l.getD t dfltRow) = true →
          m ≤ actDiff tt (l.getD t dfltRow))) ∨
      (∃ t, t < l.length ∧
        scanActivities used s1 s2 s3 tt k (b, m) l =
          (some (k + t), actDiff tt (l.getD t dfltRow)) ∧
        used.contains (k + t) = false ∧
        eligRec s1 s2 s3 (l.getD t dfltRow) = true ∧
        actDiff tt (l.getD t dfltRow) < m ∧
        (∀ u, u < l.length → used.contains (k + u) = false →
          eligRec s1 s2 s3 (l.getD u dfltRow) = true →
          actDiff tt (l.getD t dfltRow) ≤ actDiff tt (l.getD u dfltRow)) ∧
        (∀ u, u < l.length → u < t → used.contains (k + u) = false →
          eligRec s1 s2 s3 (l.getD u dfltRow) = true →
          actDiff tt (l.getD t dfltRow) < actDiff tt (l.getD u dfltRow))) := by
  intro l
  induction l with
  | nil =>
    intro k b m
    left
    exact ⟨rfl, fun t ht => by cases ht⟩
  | cons hd rest ih =>
    intro k b m
    rw [scanActivities, activityStep_eq]
    by_cases hcond : used.contains k = false ∧ eligRec s1 s2 s3 hd = true ∧
        actDiff tt hd < m
    · rw [if_pos hcond]
      rcases ih (k + 1) (some k) (actDiff tt hd) with ⟨heq, hmin⟩ | ⟨t', ht', heq, hok, helig, hlt, hmin, hbef⟩
      · right
        refine ⟨0, by simp, ?_, ?_, ?_, ?_, ?_, ?_⟩
        · rw [heq]
          simp
        · simpa using hcond.1
        · simpa using hcond.2.1
        · simpa using hcond.2.2
        · intro u hu hoku heligu
          rcases u with _ | v
          · simp
          · simp only [List.getD_cons_succ, List.getD_cons_zero] at *
            have := hmin v (by simpa using hu) (by rw [show k + 1 + v = k + (v + 1) by omega]; exact hoku) heligu
            exact this
        · intro u hu hut
          omega
      · right
        refine ⟨t' + 1, by simpa using ht', ?_, ?_, ?_, ?_, ?_, ?_⟩
        · rw [heq]
          rw [show k + 1 + t' = k + (t' + 1) by omega]
          simp
        · rw [show k + (t' + 1) = k + 1 + t' by omega]
          exact hok
        · simpa using helig
        · exact lt_trans (by simpa using hlt) hcond.2.2
        · intro u hu hoku heligu
          rcases u with _ | v
          · simp only [List.getD_cons_succ, List.getD_cons_zero] at *
            exact le_of_lt hlt
          · simp only [List.getD_cons_succ, List.getD_cons_zero] at *
            exact hmin v (by simpa using hu) (by rw [show k + 1 + v = k + (v + 1) by omega]; exact hoku) heligu
        · intro u hu hut hoku heligu
          rcases u with _ | v
          · simp only [List.getD_cons_succ, List.getD_cons_zero] at *
            exact hlt
          · simp only [List.getD_cons_succ, List.getD_cons_zero] at *
            exact hbef v (by simpa using hu) (by omega) (by rw [show k + 1 + v = k + (v + 1) by omega]; exact hoku) heligu
    · rw [if_neg hcond]
      have hblock : used.contains k = false → eligRec s1 s2 s3 hd = true →
          m ≤ actDiff tt hd := by
        intro hok helig
        by_contra hlt
        exact hcond ⟨hok, helig, not_le.1 hlt⟩
      rcases ih (k + 1) b m with ⟨heq, hmin⟩ | ⟨t', ht', heq, hok, helig, hlt, hmin, hbef⟩
      · left
        refine ⟨heq, ?_⟩
        intro t ht hokt heligt
        rcases t with _ | v
        · simp only [List.getD_cons_zero] at heligt ⊢
          exact hblock (by simpa using hokt) heligt
        · simp only [List.getD_cons_succ] at *
          exact hmin v (by simpa using ht) (by rw [show k + 1 + v = k + (v + 1) by omega]; exact hokt) heligt
      · right
        refine ⟨t' + 1, by simpa using ht', ?_, ?_, ?_, ?_, ?_, ?_⟩
        · rw [heq]
          rw [show k + 1 + t' = k + (t' + 1) by omega]
          simp
        · rw [show k + (t' + 1) = k + 1 + t' by omega]
          exact hok
        · simpa using helig
        · simpa using hlt
        · intro u hu hoku heligu
          rcases u with _ | v
          · simp only [List.getD_cons_succ, List.getD_cons_zero] at *
            exact le_of_lt (lt_of_lt_of_le hlt (hblock (by simpa using hoku) heligu))
          · simp only [List.getD_cons_succ, List.getD_cons_zero] at *
            exact hmin v (by simpa using hu) (by rw [show k + 1 + v = k + (v + 1) by omega]; exact hoku) heligu
        · intro u hu hut hoku heligu
          rcases u with _ | v
          · simp only [List.getD_cons_succ, List.getD_cons_zero] at *
            exact lt_of_lt_of_le hlt (hblock (by simpa using hoku) heligu)
          · simp only [List.getD_cons_succ, List.getD_cons_zero] at *
            exact hbef v (by simpa using hu) (by omega) (by rw [show k + 1 + v = k + (v + 1) by omega]; exact hoku) heligu

/-- C2: for a success-status signal, Step 1 returns index `i` exactly when
`i` is an unclaimed activity record that is eligible (side equal to the
signal's action, mutual-substring simplified-slug match, and outcome
agreement whenever both simplified outcomes are binary yes/no), its
absolute time difference from the signal is strictly under 3600 seconds,
it minimizes that difference over all eligible unclaimed records, and it
is the first record in scan order attaining that minimum. -/
theorem claim2_step1_selects_min (used : List ℕ)
    (simpleSide simpleSlug simpleOutcome : String) (tradeTime : ℚ)
    (hist : List PortfolioRow) (i : ℕ) :
    (findBestActivity used simpleSide simpleSlug simpleOutcome tradeTime hist).1 = some i ↔
      (eligAt used simpleSide simpleSlug simpleOutcome hist i ∧
        actDiff tradeTime (hist.getD i dfltRow) < 3600 ∧
        (∀ j, eligAt used simpleSide simpleSlug simpleOutcome hist j →
          actDiff tradeTime (hist.getD i dfltRow) ≤ actDiff tradeTime (hist.getD j dfltRow)) ∧
        (∀ j, j < i → eligAt used simpleSide simpleSlug simpleOutcome hist j →
          actDiff tradeTime (hist.getD i dfltRow) < actDiff tradeTime (hist.getD j dfltRow))) := by
  unfold findBestActivity
  constructor
  · intro hres
    rcases scanActivities_spec used simpleSide simpleSlug simpleOutcome tradeTime hist 0 none 3600 with
      ⟨heq, -⟩ | ⟨t, ht, heq, hok, helig, hlt, hmin, hbef⟩
    · rw [heq] at hres
      cases hres
    · rw [heq] at hres
      simp only [Nat.zero_add] at heq hok hmin hbef
      have hit : t = i := by simpa using hres
      subst hit
      refine ⟨⟨ht, hok, helig⟩, hlt, ?_, ?_⟩
      · intro j hj
        exact hmin j hj.1 hj.2.1 hj.2.2
      · intro j hjt hj
        exact hbef j hj.1 hjt hj.2.1 hj.2.2
  · rintro ⟨⟨hilen, hiok, hielig⟩, hidiff, hmin, hbef⟩
    rcases scanActivities_spec used simpleSide simpleSlug simpleOutcome tradeTime hist 0 none 3600 with
      ⟨heq, hminL⟩ | ⟨t, ht, heq, hok, helig, hlt, hminS, hbefS⟩
    · have := hminL i hilen (by simpa using hiok) hielig
      exact absurd hidiff (not_lt.2 this)
    · simp only [Nat.zero_add] at heq hok hminS hbefS
      rw [heq]
      have e1 : actDiff tradeTime (hist.getD t dfltRow) ≤
          actDiff tradeTime (hist.getD i dfltRow) := hminS i hilen hiok hielig
      have e2 : actDiff tradeTime (hist.getD i dfltRow) ≤
          actDiff tradeTime (hist.getD t dfltRow) := hmin t ⟨ht, hok, helig⟩
      rcases lt_trichotomy t i with hti | hti | hti
      · have := hbef t hti ⟨ht, hok, helig⟩
        exact absurd (lt_of_le_of_lt e1 this) (lt_irrefl _)
      · rw [hti]
      · have := hbefS i hilen hti hiok hielig
        exact absurd (lt_of_le_of_lt e2 this) (lt_irrefl _)

/-- C2 witness: on a one-row history matching the Scenario A-style signal
(side BUY, mutual slug match, outcome Yes, 300 s away), the scan selects
index 0. -/
theorem claim2_witness :
    (findBestActivity [] "BUY" "abc" "yes" 1000 [actRowW]).1 = some 0 := by
  refine (claim2_step1_selects_min [] "BUY" "abc" "yes" 1000 [actRowW] 0).mpr
    ⟨⟨by decide, by with_unfolding_all decide, by with_unfolding_all decide⟩,
      by with_unfolding_all decide, ?_, ?_⟩
  · intro j hj
    have h1 : j < 1 := hj.1
    have : j = 0 := by omega
    subst this
    exact le_refl _
  · intro j hj0 hj
    omega

/-- Splitting at a character absent from both prefixes is unambiguous. -/
theorem append_cons_inj_of_not_mem {p p' q q' : List Char} {c : Char}
    (hp : c ∉ p) (hp' : c ∉ p') (h : p ++ c :: q = p' ++ c :: q') : p = p' ∧ q = q' := by
  induction p generalizing p' with
  | nil =>
    cases p' with
    | nil => simpa using h
    | cons y ys =>
      simp only [List.nil_append, List.cons_append, List.cons.injEq] at h
      exact absurd (h.1 ▸ List.mem_cons_self y ys) hp'
  | cons x xs ih =>
    cases p' with
    | nil =>
      simp only [List.nil_append, List.cons_append, List.cons.injEq] at h
      exact absurd (h.1.symm ▸ List.mem_cons_self x xs) hp
    | cons y ys =>
      simp only [List.cons_append, List.cons.injEq] at h
      have tail := ih (fun hm => hp (List.mem_cons_of_mem x hm))
        (fun hm => hp' (List.mem_cons_of_mem y hm)) h.2
      exact ⟨by rw [h.1, tail.1], tail.2⟩

/-- Splitting at a character absent from both suffixes is unambiguous. -/
theorem append_cons_inj_of_not_mem_right {a b s t : List Char} {c : Char}
    (hs : c ∉ s) (ht : c ∉ t) (h : a ++ c :: s = b ++ c :: t) : a = b ∧ s = t := by
  have hrev : s.reverse ++ c :: a.reverse = t.reverse ++ c :: b.reverse := by
    have := congrArg List.reverse h
    simpa [List.reverse_append] using this
  have key := append_cons_inj_of_not_mem (by simpa using hs) (by simpa using ht) hrev
  constructor
  · have := congrArg List.reverse key.2
    simpa using this
  · have := congrArg List.reverse key.1
    simpa using this

/-- A simplified key never contains a hyphen: `simplify` keeps only
`[a-z0-9]`. -/
theorem simplify_no_dash (s : String) : ('-') ∉ (simplify s).data := by
  intro hm
  unfold simplify at hm
  simp only [List.mem_filter] at hm
  exact absurd hm.2 (by decide)

/-- The attempts-map key `trader ++ "-" ++ simpleSlug` determines both
components, because a simplified slug cannot contain the separator. -/
theorem attemptKey_inj {a b s t : String} (hs : ('-') ∉ s.data) (ht : ('-') ∉ t.data)
    (h : attemptKey a s = attemptKey b t) : a = b ∧ s = t := by
  unfold attemptKey at h
  have hdata : a.data ++ '-' :: s.data = b.data ++ '-' :: t.data := by
    have := congrArg String.data h
    simpa [String.data_append] using this
  have key := append_cons_inj_of_not_mem_right hs ht hdata
  exact ⟨String.ext key.1, String.ext key.2⟩

/-- The attempts map after one step: bumped at the signal's key when the
signal passes the noise and nonempty-simplified-slug guards. -/
theorem stepSignal_attempts (aps cps hist : List PortfolioRow) (st : RunState) (s : Signal)
    (k : String) :
    (stepSignal aps cps hist st s).attempts k =
      if ¬(s.details.marketSlug = "" ∧ s.details.marketTitle = "") ∧
          simplify s.details.marketSlug ≠ "" ∧
          k = attemptKey s.traderName (simplify s.details.marketSlug)
      then st.attempts k + s.details.amount else st.attempts k := by
  unfold stepSignal
  by_cases hskip : s.details.marketSlug = "" ∧ s.details.marketTitle = ""
  · rw [if_pos hskip, if_neg (fun hcon => hcon.1 hskip)]
  · rw [if_neg hskip]
    dsimp only
    by_cases hss : simplify s.details.marketSlug ≠ ""
    · rw [if_pos hss]
      by_cases hk : k = attemptKey s.traderName (simplify s.details.marketSlug)
      · rw [if_pos hk, if_pos ⟨hskip, hss, hk⟩]
      · rw [if_neg hk, if_neg (fun hcon => hk hcon.2.2)]
    · rw [if_neg hss, if_neg (fun hcon => hss hcon.2.1)]

/-- The final attempts map holds, under each key, the initial value plus
the sum of the stated amounts of the guarded signals keyed there. -/
theorem foldl_attempts (aps cps hist : List PortfolioRow) :
    ∀ (sigs : List Signal) (st : RunState) (k : String),
      (sigs.foldl (stepSignal aps cps hist) st).attempts k =
        st.attempts k +
          ((sigs.filter fun g =>
              (!(g.details.marketSlug == "" && g.details.marketTitle == "")) &&
              (simplify g.details.marketSlug != "") &&
              (attemptKey g.traderName (simplify g.details.marketSlug) == k)).map
            (fun g => g.details.amount)).sum := by
  intro sigs
  induction sigs with
  | nil =>
    intro st k
    simp
  | cons s ss ih =>
    intro st k
    rw [List.foldl_cons, ih, stepSignal_attempts]
    by_cases hcond : ¬(s.details.marketSlug = "" ∧ s.details.marketTitle = "") ∧
        simplify s.details.marketSlug ≠ "" ∧
        k = attemptKey s.traderName (simplify s.details.marketSlug)
    · rw [if_pos hcond]
      rw [List.filter_cons_of_pos (by
        simp only [Bool.and_eq_true, Bool.not_eq_true', bne_iff_ne, beq_iff_eq]
        refine ⟨⟨?_, hcond.2.1⟩, hcond.2.2.symm⟩
        rw [Bool.and_eq_false_iff]
        rcases not_and_or.1 hcond.1 with hx | hx
        · exact Or.inl (by simpa using hx)
        · exact Or.inr (by simpa using hx))]
      rw [List.map_cons, List.sum_cons]
      ring
    · rw [if_neg hcond]
      rw [List.filter_cons_of_neg (by
        simp only [Bool.and_eq_true, Bool.not_eq_true', bne_iff_ne, beq_iff_eq]
        rintro ⟨⟨hng, hne⟩, hkk⟩
        exact hcond ⟨by
            rw [Bool.and_eq_false_iff] at hng
            rcases hng with hx | hx
            · exact fun hcon => (by simpa using hx : s.details.marketSlug ≠ "") hcon.1
            · exact fun hcon => (by simpa using hx : s.details.marketTitle ≠ "") hcon.2,
          hne, hkk.symm⟩)]

/-- C5 (amended): after the second pass, every output record whose market
slug is truthy AND simplifies to a nonempty key, and whose
(trader, simplified-slug) pair has a nonzero total of stated amounts,
carries that total; the sum counts failed, skipped and successful signals
alike.  (When the simplified slug is empty — a slug with no alphanumerics —
the first pass's `if (simpleSlug)` guard accumulates nothing, and when the
total is zero the second pass's `if (total)` truthiness test drops it; in
both cases the field stays undefined.) -/
theorem claim5_total_attempted (aps cps hist : List PortfolioRow) (sigs : List Signal)
    (t : ProcessedTrade) (ht : t ∈ processSignals aps cps hist sigs)
    (hslug : t.marketSlug ≠ "") (hss : simplify t.marketSlug ≠ "")
    (hsum : sumAttempts sigs t.traderName (simplify t.marketSlug) ≠ 0) :
    t.totalAttemptedAmount = some (sumAttempts sigs t.traderName (simplify t.marketSlug)) := by
  unfold processSignals at ht
  dsimp only at ht
  rcases List.mem_map.1 ht with ⟨t₀, ht₀, rfl⟩
  have hf := secondPass_fields (firstPass aps cps hist sigs).attempts t₀
  have htn := hf.2.2.2.2.2.1
  have hms := hf.2.2.2.2.2.2
  rw [hms] at hslug hss
  rw [htn, hms] at hsum
  rw [htn, hms]
  have hkey : (firstPass aps cps hist sigs).attempts
      (attemptKey t₀.traderName (simplify t₀.marketSlug)) =
      sumAttempts sigs t₀.traderName (simplify t₀.marketSlug) := by
    unfold firstPass
    rw [foldl_attempts]
    have hinit : initialState.attempts
        (attemptKey t₀.traderName (simplify t₀.marketSlug)) = 0 := rfl
    rw [hinit, zero_add]
    unfold sumAttempts
    refine congrArg List.sum (congrArg (List.map _) (List.filter_congr ?_))
    intro g hg
    rw [Bool.eq_iff_iff]
    simp only [Bool.and_eq_true, Bool.not_eq_true', bne_iff_ne, beq_iff_eq]
    constructor
    · rintro ⟨⟨hng, hne⟩, hkk⟩
      have hinj := attemptKey_inj (simplify_no_dash g.details.marketSlug)
        (simplify_no_dash t₀.marketSlug) hkk
      exact ⟨⟨hng, hinj.1⟩, hinj.2⟩
    · rintro ⟨⟨hng, hta⟩, hsl⟩
      refine ⟨⟨hng, ?_⟩, ?_⟩
      · rw [hsl]
        exact hss
      · rw [hta, hsl]
  show (secondPass (firstPass aps cps hist sigs).attempts t₀).totalAttemptedAmount = _
  unfold secondPass
  rw [if_pos hslug]
  dsimp only
  rw [hkey, if_pos hsum]

/-- C5 counterexample to the unconditional claim, forcing both provisos of
the amendment: (a) a single extracted signal stating $0 gives its pair the
total 0, which the second pass's `if (total)` truthiness test drops; and
(b) a truthy slug with no alphanumerics ("-", a nonzero $20 amount)
simplifies to the empty key, which the first pass's `if (simpleSlug)`
guard never accumulates — in both runs the record carries no
totalAttemptedAmount although its pair's sum exists (0, resp. 20). -/
theorem claim5_cex :
    ((processSignals [] [] [] [sigZ]).map ProcessedTrade.totalAttemptedAmount = [none] ∧
      sumAttempts [sigZ] "T" "m" = 0) ∧
    ((processSignals [] [] [] [sigDash]).map ProcessedTrade.totalAttemptedAmount = [none] ∧
      sigDash.details.marketSlug ≠ "" ∧
      sumAttempts [sigDash] "T" (simplify "-") = 20) := by
  refine ⟨⟨?_, ?_⟩, ?_, ?_, ?_⟩
  · with_unfolding_all decide
  · with_unfolding_all decide
  · with_unfolding_all decide
  · with_unfolding_all decide
  · with_unfolding_all decide

/-- C5 witness (the spec's Scenario E): amounts $20 (failed) and $30
(succeeded) from one trader on one slug give the successful record a
total attempted amount of $50. -/
theorem claim5_witness :
    ((processSignals [] [] [] [sigE1, sigE2]).getD 1 dTrade).totalAttemptedAmount = some 50 := by
  have h := claim5_total_attempted [] [] [] [sigE1, sigE2]
    ((processSignals [] [] [] [sigE1, sigE2]).getD 1 dTrade)
    (by with_unfolding_all decide) (by with_unfolding_all decide)
    (by with_unfolding_all decide) (by with_unfolding_all decide)
  rw [h]
  with_unfolding_all decide

/-- `objKeysAcc` yields distinct names not among those already seen. -/
theorem objKeysAcc_nodup_and_fresh :
    ∀ (l seen : List String),
      (objKeysAcc seen l).Nodup ∧ ∀ a ∈ objKeysAcc seen l, a ∉ seen := by
  intro l
  induction l with
  | nil => intro seen; simp [objKeysAcc]
  | cons x xs ih =>
    intro seen
    rw [objKeysAcc]
    by_cases hx : x ∈ seen
    · rw [if_pos hx]
      exact ih seen
    · rw [if_neg hx]
      have h := ih (x :: seen)
      constructor
      · refine List.nodup_cons.2 ⟨?_, h.1⟩
        intro hmem
        exact h.2 x hmem (List.mem_cons_self x seen)
      · intro a ha
        rcases List.mem_cons.1 ha with rfl | ha
        · exact hx
        · exact fun hs => h.2 a ha (List.mem_cons_of_mem x hs)

/-- Object key enumeration yields distinct names. -/
theorem objKeys_nodup (l : List String) : (objKeys l).Nodup :=
  (objKeysAcc_nodup_and_fresh l []).1

/-- `objKeysAcc` keeps exactly the unseen names. -/
theorem objKeysAcc_mem :
    ∀ (l seen : List String) (a : String),
      a ∈ objKeysAcc seen l ↔ (a ∈ l ∧ a ∉ seen) := by
  intro l
  induction l with
  | nil =>
    intro seen a
    simp [objKeysAcc]
  | cons x xs ih =>
    intro seen a
    rw [objKeysAcc]
    by_cases hx : x ∈ seen
    · rw [if_pos hx, ih]
      constructor
      · rintro ⟨hm, hs⟩
        exact ⟨List.mem_cons_of_mem x hm, hs⟩
      · rintro ⟨hm, hs⟩
        rcases List.mem_cons.1 hm with rfl | hm
        · exact absurd hx hs
        · exact ⟨hm, hs⟩
    · rw [if_neg hx]
      constructor
      · intro hm
        rcases List.mem_cons.1 hm with rfl | hm
        · exact ⟨List.mem_cons_self a xs, hx⟩
        · rcases (ih (x :: seen) a).1 hm with ⟨hmx, hsx⟩
          exact ⟨List.mem_cons_of_mem x hmx,
            fun hs => hsx (List.mem_cons_of_mem x hs)⟩
      · rintro ⟨hm, hs⟩
        rcases List.mem_cons.1 hm with rfl | hm
        · exact List.mem_cons_self a _
        · by_cases hax : a = x
          · subst hax
            exact List.mem_cons_self a _
          · refine List.mem_cons_of_mem x ((ih (x :: seen) a).2 ⟨hm, ?_⟩)
            intro hcon
            rcases List.mem_cons.1 hcon with h | h
            · exact hax h
            · exact hs h

/-- Key enumeration preserves exactly the underlying name set (true of JS
`Object.keys` regardless of its ordering of integer-like keys). -/
theorem objKeys_mem (l : List String) (a : String) : a ∈ objKeys l ↔ a ∈ l := by
  rw [objKeys, objKeysAcc_mem]
  simp

/-- `attemptsByTraderOf` counts all of a trader's records. -/
theorem attemptsByTraderOf_eq_countP :
    ∀ (trades : List ProcessedTrade) (f : String → ℕ) (k : String),
      (trades.foldl (fun f t k => if k = t.traderName then f k + 1 else f k) f) k =
        f k + trades.countP (fun t => t.traderName == k) := by
  intro trades
  induction trades with
  | nil => intro f k; simp
  | cons t ts ih =>
    intro f k
    rw [List.foldl_cons, ih]
    by_cases hk : k = t.traderName
    · rw [List.countP_cons_of_pos _ _ (by simp [hk])]
      simp only [if_pos hk]
      ring
    · rw [List.countP_cons_of_neg _ _ (by simp; exact fun h => hk h.symm)]
      simp only [if_neg hk]

/-- The name attached to each per-trader summary. -/
theorem buildTraderStats_name (dateMs : String → ℚ) (now : ℚ)
    (trades : List ProcessedTrade) (att : String → ℕ) (trader : String) :
    (buildTraderStats dateMs now trades att trader).name = trader := rfl

/-- The attempts count attached to each per-trader summary. -/
theorem buildTraderStats_totalAttempts (dateMs : String → ℚ) (now : ℚ)
    (trades : List ProcessedTrade) (att : String → ℕ) (trader : String) :
    (buildTraderStats dateMs now trades att trader).totalAttempts = att trader := rfl

/-- The aggregator never sets a favorite category (the returned object
literal omits the property). -/
theorem buildTraderStats_favoriteCategory (dateMs : String → ℚ) (now : ℚ)
    (trades : List ProcessedTrade) (att : String → ℕ) (trader : String) :
    (buildTraderStats dateMs now trades att trader).favoriteCategory = none := rfl

/-- C6 (amended): the aggregator produces exactly one TraderStats record
per distinct trader name appearing among the *successful* reconciled
trades (status success, position matched, PnL defined) — stated as: the
record names are distinct and are exactly the successful traders' names;
traders all of whose signals failed get none — and each record's
totalAttempts counts all of that trader's records, successful or not.
(Only the key set is asserted, no enumeration order: `Object.keys` puts
integer-like trader names first in numeric order.) -/
theorem claim6_trader_stats (dateMs : String → ℚ) (locDate : String → String) (now : ℚ)
    (trades : List ProcessedTrade) :
    ((calculateAnalytics dateMs locDate now trades).traderStats.map TraderStats.name).Nodup ∧
    (∀ n : String,
      n ∈ (calculateAnalytics dateMs locDate now trades).traderStats.map TraderStats.name ↔
      n ∈ (successfulTradesOf trades).map ProcessedTrade.traderName) ∧
    (∀ s ∈ (calculateAnalytics dateMs locDate now trades).traderStats,
      s.totalAttempts = trades.countP (fun t => t.traderName == s.name)) := by
  have hmap : (calculateAnalytics dateMs locDate now trades).traderStats.map TraderStats.name =
      analyticsTraders trades := by
    unfold calculateAnalytics
    dsimp only
    rw [List.map_map]
    have : (TraderStats.name ∘ buildTraderStats dateMs now trades (attemptsByTraderOf trades)) =
        id := by
      funext tr
      exact buildTraderStats_name dateMs now trades _ tr
    rw [this, List.map_id]
  refine ⟨hmap ▸ objKeys_nodup _, ?_, ?_⟩
  · intro n
    rw [hmap]
    exact objKeys_mem _ n
  intro s hs
  unfold calculateAnalytics at hs
  dsimp only at hs
  rcases List.mem_map.1 hs with ⟨trader, htr, rfl⟩
  rw [buildTraderStats_totalAttempts, buildTraderStats_name]
  unfold attemptsByTraderOf
  rw [attemptsByTraderOf_eq_countP trades (fun _ => 0) trader, Nat.zero_add]

/-- C6 counterexample to the claim as stated: a trader whose only signal
failed appears in the input yet gets no TraderStats record at all. -/
theorem claim6_cex :
    (calculateAnalytics dLen dLoc 0 [tFail]).traderStats = [] ∧
    [tFail].map ProcessedTrade.traderName = ["T"] := by
  constructor
  · with_unfolding_all decide
  · with_unfolding_all decide

/-- C6 witness: one successful and one failed record of trader `T` yield
exactly one summary whose attempts count is 2. -/
theorem claim6_witness :
    ("T" ∈ (calculateAnalytics dLen dLoc 0 [tSucc1, tFail]).traderStats.map TraderStats.name) ∧
    ((calculateAnalytics dLen dLoc 0 [tSucc1, tFail]).traderStats.getD 0
      (buildTraderStats dLen 0 [] (fun _ => 0) "")).totalAttempts = 2 := by
  have h := claim6_trader_stats dLen dLoc 0 [tSucc1, tFail]
  constructor
  · exact (h.2.1 "T").2 (by with_unfolding_all decide)
  · have hmem := h.2.2 ((calculateAnalytics dLen dLoc 0 [tSucc1, tFail]).traderStats.getD 0
      (buildTraderStats dLen 0 [] (fun _ => 0) "")) (by with_unfolding_all decide)
    rw [hmem]
    with_unfolding_all decide

/-- C7: the aggregator returns TraderStats records with no favoriteCategory
property at all (the interface requires a string and the spec requires the
mode of the trader's category tags, but the returned object literal omits
the field), shown here on a successful Sport trade whose mode is Sport. -/
theorem claim7_favorite_category_missing :
    (calculateAnalytics dLen dLoc 0 [tSucc1]).traderStats.map TraderStats.favoriteCategory =
      [none] ∧ tSucc1.category = MarketCategory.sport := by
  constructor
  · with_unfolding_all decide
  · rfl

/-- C9 (amended): in the CSV row mapping, every optional numeric column
(`Total Attempted`, `Exec Amount`, `Exec Price`, `Shares`) serializes an
undefined value as the empty string, and the PnL / Current Value columns
serialize an undefined value as the empty string and a defined nonzero
value to two decimal places — but a defined ZERO value also serializes as
the empty string (the source tests `t.pnl ? ... : ''`, which is falsy at
0), not as "0.00". -/
theorem claim9_csv_serialization (t : ProcessedTrade) :
    (t.totalAttemptedAmount = none →
      List.lookup "Total Attempted" (exportRow t) = some (Cell.str "")) ∧
    (t.matchedExecutionAmount = none →
      List.lookup "Exec Amount" (exportRow t) = some (Cell.str "")) ∧
    (t.matchedExecutionPrice = none →
      List.lookup "Exec Price" (exportRow t) = some (Cell.str "")) ∧
    (t.shares = none → List.lookup "Shares" (exportRow t) = some (Cell.str "")) ∧
    (t.pnl = none → List.lookup "PnL" (exportRow t) = some (Cell.str "")) ∧
    (∀ p : ℚ, t.pnl = some p → p ≠ 0 →
      List.lookup "PnL" (exportRow t) = some (Cell.str (toFixed 2 p))) ∧
    (t.pnl = some 0 → List.lookup "PnL" (exportRow t) = some (Cell.str "")) ∧
    (t.currentValue = none → List.lookup "Current Value" (exportRow t) = some (Cell.str "")) ∧
    (∀ v : ℚ, t.currentValue = some v → v ≠ 0 →
      List.lookup "Current Value" (exportRow t) = some (Cell.str (toFixed 2 v))) ∧
    (t.currentValue = some 0 →
      List.lookup "Current Value" (exportRow t) = some (Cell.str "")) := by
  refine ⟨?_, ?_, ?_, ?_, ?_, ?_, ?_, ?_, ?_, ?_⟩
  · intro h
    simp [exportRow, orEmptyCell, h, List.lookup]
  · intro h
    simp [exportRow, orEmptyCell, h, List.lookup]
  · intro h
    simp [exportRow, orEmptyCell, h, List.lookup]
  · intro h
    simp [exportRow, orEmptyCell, h, List.lookup]
  · intro h
    simp [exportRow, h, List.lookup]
  · intro p hp hne
    simp [exportRow, hp, hne, List.lookup]
  · intro h
    simp [exportRow, h, List.lookup]
  · intro h
    simp [exportRow, h, List.lookup]
  · intro v hv hne
    simp [exportRow, hv, hne, List.lookup]
  · intro h
    simp [exportRow, h, List.lookup]

/-- C9 counterexample to the claim as stated: a defined PnL equal to 0
serializes as the empty string, not "0.00". -/
theorem claim9_cex :
    tZero.pnl = some 0 ∧
    List.lookup "PnL" (exportRow tZero) = some (Cell.str "") ∧
    Cell.str "" ≠ Cell.str "0.00" := by
  refine ⟨rfl, ?_, by decide⟩
  with_unfolding_all decide

/-- C9 witness: a defined PnL of 3/2 serializes as "1.50". -/
theorem claim9_witness :
    List.lookup "PnL" (exportRow tPnl) = some (Cell.str "1.50") := by
  have h := (claim9_csv_serialization tPnl).2.2.2.2.2.1 (3/2) rfl (by norm_num)
  rw [h]
  have : toFixed 2 (3/2) = "1.50" := by with_unfolding_all decide
  rw [this]

/-- The overall walk stamps each point with its trade's parsed date. -/
theorem overallSeriesAux_map_timestamp (d : String → ℚ) (loc : String → String) :
    ∀ (l : List ProcessedTrade) (r : ℚ) (w c : ℕ),
      (overallSeriesAux d loc r w c l).map TimeSeriesPoint.timestamp =
        l.map (fun t => d t.date) := by
  intro l
  induction l with
  | nil => intro r w c; rfl
  | cons t rest ih =>
    intro r w c
    rw [overallSeriesAux]
    simp only [List.map_cons, ih]

/-- The overall walk emits one point per trade. -/
theorem overallSeriesAux_length (d : String → ℚ) (loc : String → String) :
    ∀ (l : List ProcessedTrade) (r : ℚ) (w c : ℕ),
      (overallSeriesAux d loc r w c l).length = l.length := by
  intro l
  induction l with
  | nil => intro r w c; rfl
  | cons t rest ih =>
    intro r w c
    rw [overallSeriesAux]
    simp only [List.length_cons, ih]

/-- First point of the overall walk: the carried PnL plus the head trade's. -/
theorem overallSeriesAux_value0 (d : String → ℚ) (loc : String → String)
    (t : ProcessedTrade) (rest : List ProcessedTrade) (r : ℚ) (w c : ℕ) :
    ((overallSeriesAux d loc r w c (t :: rest)).getD 0 dPt).value = r + t.pnl.getD 0 := rfl

/-- Recurrence of the overall walk: each point's value is the previous
value plus its own trade's PnL. -/
theorem overallSeriesAux_step (d : String → ℚ) (loc : String → String) :
    ∀ (l : List ProcessedTrade) (r : ℚ) (w c : ℕ) (k : ℕ), k + 1 < l.length →
      ((overallSeriesAux d loc r w c l).getD (k + 1) dPt).value =
        ((overallSeriesAux d loc r w c l).getD k dPt).value +
          (l.getD (k + 1) dTrade).pnl.getD 0 := by
  intro l
  induction l with
  | nil =>
    intro r w c k hk
    simp at hk
  | cons t rest ih =>
    intro r w c k hk
    rcases k with _ | v
    · rcases rest with _ | ⟨t', rest'⟩
      · simp at hk
      · rfl
    · rw [overallSeriesAux]
      have hlen : v + 1 < rest.length := by
        simpa using hk
      simp only [List.getD_cons_succ]
      exact ih _ _ _ v hlen

/-- The per-trader walk stamps each PnL point with its trade's date. -/
theorem traderSeriesAux_fst_map_timestamp (d : String → ℚ) (loc : String → String)
    (trader : String) :
    ∀ (l : List ProcessedTrade) (p : ℚ) (w c : ℕ),
      ((traderSeriesAux d loc trader p w c l).1.map TimeSeriesPoint.timestamp) =
        l.map (fun t => d t.date) := by
  intro l
  induction l with
  | nil => intro p w c; rfl
  | cons t rest ih =>
    intro p w c
    rw [traderSeriesAux]
    simp only [List.map_cons, ih]

/-- The per-trader walk emits one PnL point per trade. -/
theorem traderSeriesAux_fst_length (d : String → ℚ) (loc : String → String)
    (trader : String) :
    ∀ (l : List ProcessedTrade) (p : ℚ) (w c : ℕ),
      (traderSeriesAux d loc trader p w c l).1.length = l.length := by
  intro l
  induction l with
  | nil => intro p w c; rfl
  | cons t rest ih =>
    intro p w c
    rw [traderSeriesAux]
    simp only [List.length_cons, ih]

/-- Every PnL point of a trader's walk is tagged with that trader. -/
theorem traderSeriesAux_fst_trader (d : String → ℚ) (loc : String → String)
    (trader : String) :
    ∀ (l : List ProcessedTrade) (p : ℚ) (w c : ℕ),
      ∀ pt ∈ (traderSeriesAux d loc trader p w c l).1, pt.trader = some trader := by
  intro l
  induction l with
  | nil =>
    intro p w c pt hpt
    cases hpt
  | cons t rest ih =>
    intro p w c pt hpt
    rw [traderSeriesAux] at hpt
    rcases List.mem_cons.1 hpt with rfl | hpt
    · rfl
    · exact ih _ _ _ pt hpt

/-- First PnL point of a trader's walk. -/
theorem traderSeriesAux_fst_value0 (d : String → ℚ) (loc : String → String)
    (trader : String) (t : ProcessedTrade) (rest : List ProcessedTrade)
    (p : ℚ) (w c : ℕ) :
    (((traderSeriesAux d loc trader p w c (t :: rest)).1.getD 0 dPt)).value =
      p + t.pnl.getD 0 := rfl

/-- Recurrence of a trader's cumulative PnL walk. -/
theorem traderSeriesAux_fst_step (d : String → ℚ) (loc : String → String)
    (trader : String) :
    ∀ (l : List ProcessedTrade) (p : ℚ) (w c : ℕ) (k : ℕ), k + 1 < l.length →
      ((traderSeriesAux d loc trader p w c l).1.getD (k + 1) dPt).value =
        ((traderSeriesAux d loc trader p w c l).1.getD k dPt).value +
          (l.getD (k + 1) dTrade).pnl.getD 0 := by
  intro l
  induction l with
  | nil =>
    intro p w c k hk
    simp at hk
  | cons t rest ih =>
    intro p w c k hk
    rcases k with _ | v
    · rcases rest with _ | ⟨t', rest'⟩
      · simp at hk
      · rfl
    · rw [traderSeriesAux]
      have hlen : v + 1 < rest.length := by
        simpa using hk
      simp only [List.getD_cons_succ]
      exact ih _ _ _ v hlen

/-- The date sort produces a list pairwise ordered by parsed date. -/
theorem sortByDate_sorted (d : String → ℚ) (l : List ProcessedTrade) :
    (sortByDate d l).Pairwise (fun a b => d a.date ≤ d b.date) := by
  unfold sortByDate
  haveI : IsTotal ProcessedTrade (fun a b => d a.date ≤ d b.date) :=
    ⟨fun a b => le_total _ _⟩
  haveI : IsTrans ProcessedTrade (fun a b => d a.date ≤ d b.date) :=
    ⟨fun _ _ _ hab hbc => le_trans hab hbc⟩
  exact List.sorted_insertionSort _ l

/-- A trader's PnL block contributes nothing to another trader's filter. -/
theorem traderPnlSeries_filter_of_ne (d : String → ℚ) (loc : String → String)
    (trades : List ProcessedTrade) (k trader : String) (hne : k ≠ trader) :
    (traderPnlSeries d loc trades k).filter (fun p => p.trader == some trader) = [] := by
  rw [List.filter_eq_nil_iff]
  intro p hp
  have := traderSeriesAux_fst_trader d loc k _ 0 0 0 p hp
  simp [this, hne]

/-- A trader's own PnL block passes its filter unchanged. -/
theorem traderPnlSeries_filter_self (d : String → ℚ) (loc : String → String)
    (trades : List ProcessedTrade) (trader : String) :
    (traderPnlSeries d loc trades trader).filter (fun p => p.trader == some trader) =
      traderPnlSeries d loc trades trader := by
  rw [List.filter_eq_self]
  intro p hp
  have := traderSeriesAux_fst_trader d loc trader _ 0 0 0 p hp
  simp [this]

/-- Filtering an absent trader out of the concatenated blocks yields
nothing. -/
theorem flatten_blocks_filter_of_not_mem (d : String → ℚ) (loc : String → String)
    (trades : List ProcessedTrade) (trader : String) :
    ∀ (names : List String), trader ∉ names →
      ((names.map (traderPnlSeries d loc trades)).flatten.filter
        (fun p => p.trader == some trader)) = [] := by
  intro names
  induction names with
  | nil => intro _; rfl
  | cons n ns ih =>
    intro hmem
    rw [List.map_cons, List.flatten_cons, List.filter_append]
    rw [traderPnlSeries_filter_of_ne d loc trades n trader
      (fun hcon => hmem (hcon ▸ List.mem_cons_self n ns))]
    rw [ih (fun hcon => hmem (List.mem_cons_of_mem n hcon))]
    rfl

/-- For an enumerated trader, filtering the concatenated per-trader blocks
by that trader's tag recovers exactly that trader's block. -/
theorem flatten_blocks_filter (d : String → ℚ) (loc : String → String)
    (trades : List ProcessedTrade) (trader : String) :
    ∀ (names : List String), names.Nodup → trader ∈ names →
      ((names.map (traderPnlSeries d loc trades)).flatten.filter
        (fun p => p.trader == some trader)) = traderPnlSeries d loc trades trader := by
  intro names
  induction names with
  | nil =>
    intro _ hmem
    cases hmem
  | cons n ns ih =>
    intro hnodup hmem
    rw [List.map_cons, List.flatten_cons, List.filter_append]
    rcases List.mem_cons.1 hmem with rfl | hmem
    · rw [traderPnlSeries_filter_self]
      rw [flatten_blocks_filter_of_not_mem d loc trades trader ns
        (List.nodup_cons.1 hnodup).1]
      rw [List.append_nil]
    · rw [traderPnlSeries_filter_of_ne d loc trades n trader
        (fun hcon => (List.nodup_cons.1 hnodup).1 (hcon ▸ hmem))]
      rw [List.nil_append]
      exact ih (List.nodup_cons.1 hnodup).2 hmem

/-- C8: in the overall cumulative series and in each per-trader cumulative
PnL series, points follow the timestamp-ascending order of the sorted
successful trades, there is one point per trade, the first point's value
is that trade's PnL, and each later point's value is the previous value
plus its own trade's PnL. -/
theorem claim8_cumulative_series (dateMs : String → ℚ) (locDate : String → String)
    (now : ℚ) (trades : List ProcessedTrade) :
    (((calculateAnalytics dateMs locDate now trades).overallTimeSeries.map
        TimeSeriesPoint.timestamp).Chain' (· ≤ ·) ∧
     (calculateAnalytics dateMs locDate now trades).overallTimeSeries.length =
        (sortedSuccessOf dateMs trades).length ∧
     (0 < (sortedSuccessOf dateMs trades).length →
       ((calculateAnalytics dateMs locDate now trades).overallTimeSeries.getD 0 dPt).value =
         ((sortedSuccessOf dateMs trades).getD 0 dTrade).pnl.getD 0) ∧
     (∀ k, k + 1 < (sortedSuccessOf dateMs trades).length →
       ((calculateAnalytics dateMs locDate now trades).overallTimeSeries.getD (k + 1) dPt).value =
         ((calculateAnalytics dateMs locDate now trades).overallTimeSeries.getD k dPt).value +
           ((sortedSuccessOf dateMs trades).getD (k + 1) dTrade).pnl.getD 0)) ∧
    (∀ trader ∈ analyticsTraders trades,
      ((((calculateAnalytics dateMs locDate now trades).pnlOverTimeByTrader.filter
          (fun p => p.trader == some trader)).map TimeSeriesPoint.timestamp).Chain' (· ≤ ·) ∧
       ((calculateAnalytics dateMs locDate now trades).pnlOverTimeByTrader.filter
          (fun p => p.trader == some trader)).length =
         (sortByDate dateMs (tradesByTraderOf trades trader)).length ∧
       (0 < (sortByDate dateMs (tradesByTraderOf trades trader)).length →
         (((calculateAnalytics dateMs locDate now trades).pnlOverTimeByTrader.filter
            (fun p => p.trader == some trader)).getD 0 dPt).value =
           ((sortByDate dateMs (tradesByTraderOf trades trader)).getD 0 dTrade).pnl.getD 0) ∧
       (∀ k, k + 1 < (sortByDate dateMs (tradesByTraderOf trades trader)).length →
         (((calculateAnalytics dateMs locDate now trades).pnlOverTimeByTrader.filter
            (fun p => p.trader == some trader)).getD (k + 1) dPt).value =
           (((calculateAnalytics dateMs locDate now trades).pnlOverTimeByTrader.filter
              (fun p => p.trader == some trader)).getD k dPt).value +
             ((sortByDate dateMs (tradesByTraderOf trades trader)).getD (k + 1) dTrade).pnl.getD 0))) := by
  have hover : (calculateAnalytics dateMs locDate now trades).overallTimeSeries =
      overallSeriesAux dateMs locDate 0 0 0 (sortedSuccessOf dateMs trades) := rfl
  constructor
  · refine ⟨?_, ?_, ?_, ?_⟩
    · rw [hover, overallSeriesAux_map_timestamp]
      have hsorted : (sortedSuccessOf dateMs trades).Pairwise
          (fun a b => dateMs a.date ≤ dateMs b.date) := sortByDate_sorted dateMs _
      exact (hsorted.map (fun t : ProcessedTrade => dateMs t.date) (fun a b h => h)).chain'
    · rw [hover, overallSeriesAux_length]
    · intro hlen
      rcases hl : sortedSuccessOf dateMs trades with _ | ⟨t, rest⟩
      · rw [hl] at hlen
        cases hlen
      · rw [hover, hl, overallSeriesAux_value0, zero_add, List.getD_cons_zero]
    · intro k hk
      rw [hover, overallSeriesAux_step dateMs locDate _ 0 0 0 k hk]
  · intro trader htr
    have hfilter : (calculateAnalytics dateMs locDate now trades).pnlOverTimeByTrader.filter
        (fun p => p.trader == some trader) = traderPnlSeries dateMs locDate trades trader := by
      have : (calculateAnalytics dateMs locDate now trades).pnlOverTimeByTrader =
          ((analyticsTraders trades).map (traderPnlSeries dateMs locDate trades)).flatten := rfl
      rw [this]
      exact flatten_blocks_filter dateMs locDate trades trader (analyticsTraders trades)
        (objKeys_nodup _) htr
    have hser : traderPnlSeries dateMs locDate trades trader =
        (traderSeriesAux dateMs locDate trader 0 0 0
          (sortByDate dateMs (tradesByTraderOf trades trader))).1 := rfl
    refine ⟨?_, ?_, ?_, ?_⟩
    · rw [hfilter, hser, traderSeriesAux_fst_map_timestamp]
      have hsorted : (sortByDate dateMs (tradesByTraderOf trades trader)).Pairwise
          (fun a b => dateMs a.date ≤ dateMs b.date) := sortByDate_sorted dateMs _
      exact (hsorted.map (fun t : ProcessedTrade => dateMs t.date) (fun a b h => h)).chain'
    · rw [hfilter, hser, traderSeriesAux_fst_length]
    · intro hlen
      rcases hl : sortByDate dateMs (tradesByTraderOf trades trader) with _ | ⟨t, rest⟩
      · rw [hl] at hlen
        cases hlen
      · rw [hfilter, hser, hl, traderSeriesAux_fst_value0, zero_add, List.getD_cons_zero]
    · intro k hk
      rw [hfilter, hser, traderSeriesAux_fst_step dateMs locDate trader _ 0 0 0 k hk]

/-- C8 witness: two successful trades with PnL 10 and 5 give an overall
series whose second point carries the running total 15. -/
theorem claim8_witness :
    ((calculateAnalytics dLen dLoc 0 [tSucc1, tSucc2]).overallTimeSeries.getD 1 dPt).value =
      15 := by
  have h := (claim8_cumulative_series dLen dLoc 0 [tSucc1, tSucc2]).1.2.2.2 0
    (by with_unfolding_all decide)
  rw [h]
  with_unfolding_all decide

/-- C1 witness: on a concrete run where the only signal claims the only
activity row, the claim tag and claimed index coincide. -/
theorem claim1_witness :
    ((processSignals [] [] [actRowW] [sigD]).getD 0 dTrade).matchedActivityIndex.isSome =
      true := by
  have h := (claim1_exact_activity_exclusive [] [] [actRowW] [sigD]).2
    ((processSignals [] [] [actRowW] [sigD]).getD 0 dTrade) (by with_unfolding_all decide)
  exact h.mp (by with_unfolding_all decide)
